import Mathlib

/-!
Shallow embedding of the categorical-data contingency-analysis pipeline
(`data_processing.py`, `analysis.py`) and proofs about it.

Datasets are modelled as in-memory tables of named columns whose cells are
Python values (`PyVal`).  Pandas/SciPy operations used by the source are
modelled value-for-value:
* `pd.crosstab` builds a count matrix over the sorted distinct labels
  observed in each of the two columns;
* `df.groupby` iterates groups in ascending sorted key order;
* `scipy.stats.chi2_contingency` follows SciPy's algorithm: it rejects a
  size-0 table ("No data"), computes the expected matrix
  `row_margin * col_margin / n`, rejects when an expected entry is zero
  (when `n = 0` the expected entries are NaN, not zero, so no rejection
  happens), uses `dof = R*C - R - C + 1`, short-circuits `dof = 0` to
  `(chi2, p) = (0, 1)`, and applies the Yates continuity correction when
  `dof = 1` and the flag is set.  NaN statistics (which arise exactly when
  `n = 0` on a nonzero-size table) are modelled as `none : Option ℚ`.
The tail probability of the chi-square distribution and the Fisher exact
test are external numeric routines; they are passed in as parameters
(`sf`, `fe`) so every theorem below holds for an arbitrary implementation.
Exceptions are modelled with `Except String`.
-/

/-- A Python value as it can appear in a raw dataframe cell: a string, the
float NaN, Python's `None`, or a number (modelled by `Int`). -/
inductive PyVal where
  | str (s : String)
  | nanV
  | noneV
  | intV (n : Int)
deriving DecidableEq, Repr

/-- Python's `str()` as applied by `astype(str)`: strings unchanged,
`float('nan')` prints as "nan", `None` prints as "None", integers print in
decimal. -/
def pyStr : PyVal → String
  | .str s => s
  | .nanV => "nan"
  | .noneV => "None"
  | .intV n => toString n

/-- Characters removed by Python's `str.strip()` (ASCII whitespace). -/
def isPySpace (c : Char) : Bool :=
  c = ' ' || c = '\t' || c = '\n' || c = '\x0d' || c = '\x0b' || c = '\x0c'

/-- Python's `str.strip()`: drop leading and trailing whitespace. -/
def pyStrip (s : String) : String :=
  ⟨(s.data.dropWhile isPySpace).reverse.dropWhile isPySpace |>.reverse⟩

/-- The per-value effect of `clean_categorical_columns` on one cell:
`astype(str)`, `.str.strip()`, then the exact-match replacement
`{"": "Missing", "nan": "Missing", "None": "Missing"}` (the trailing
`fillna` is a no-op since `astype(str)` leaves no NaN behind). -/
def cleanCell (v : PyVal) : PyVal :=
  let s := pyStrip (pyStr v)
  if s = "" ∨ s = "nan" ∨ s = "None" then .str "Missing" else .str s

/-- Whether pandas treats a value as missing (NA): the float NaN and
`None` are NA; strings (including "nan") and numbers are not.  Pandas
`groupby` and `crosstab` silently drop records whose key/factor value is
NA (`dropna=True` default). -/
def PyVal.isNA : PyVal → Bool
  | .nanV => true
  | .noneV => true
  | _ => false

/-- An in-memory dataframe: named columns and rows of cells. -/
structure DataFrame where
  cols : List String
  rows : List (List PyVal)
deriving DecidableEq, Repr

/-- Index of a named column, `none` when absent. -/
def DataFrame.colIndex (df : DataFrame) (c : String) : Option Nat :=
  df.cols.indexOf? c

/-- The values of the column at index `i` (missing cells default). -/
def DataFrame.colAt (df : DataFrame) (i : Nat) : List PyVal :=
  df.rows.map (fun r => r.getD i (.str ""))

/-- The values of a named column, `none` when the column is absent. -/
def DataFrame.getCol (df : DataFrame) (c : String) : Option (List PyVal) :=
  (df.colIndex c).map df.colAt

/-- Replace the cell at index `i` of a row by the image under `f`. -/
def mapCellAt (f : PyVal → PyVal) (i : Nat) (r : List PyVal) : List PyVal :=
  r.set i (f (r.getD i (.str "")))

/-- Apply `f` to every cell of column `i`. -/
def DataFrame.mapCol (df : DataFrame) (i : Nat) (f : PyVal → PyVal) : DataFrame :=
  { cols := df.cols, rows := df.rows.map (mapCellAt f i) }

/-- `clean_categorical_columns`: for each named column (KeyError when
absent) convert to string, strip, and replace ""/"nan"/"None" by
"Missing".  Produces a new dataframe. -/
def clean_categorical_columns (df : DataFrame) : List String → Except String DataFrame
  | [] => .ok df
  | c :: rest =>
    match df.colIndex c with
    | none => .error ("Column " ++ c ++ " not in dataframe.")
    | some i => clean_categorical_columns (df.mapCol i cleanCell) rest

/-- Lexicographic `≤` on char lists (string comparison by code point). -/
def charListLe : List Char → List Char → Bool
  | [], _ => true
  | _ :: _, [] => false
  | a :: as, b :: bs =>
    if a < b then true else if b < a then false else charListLe as bs

/-- Ordering used to model how pandas sorts group keys / labels: strings
by lexicographic order, integers by numeric order, and a fixed rank across
kinds (all claims only ever sort homogeneous string or integer columns). -/
def pvLeB (a b : PyVal) : Bool :=
  match a, b with
  | .str s, .str t => charListLe s.data t.data
  | .intV m, .intV n => decide (m ≤ n)
  | .nanV, _ => true
  | _, .nanV => false
  | .noneV, _ => true
  | _, .noneV => false
  | .intV _, .str _ => true
  | .str _, .intV _ => false

/-- `pvLeB` as a Prop, for use with `List.insertionSort`. -/
def pvLe (a b : PyVal) : Prop := pvLeB a b = true

instance : DecidableRel pvLe := fun a b => by unfold pvLe; infer_instance

/-- The distinct values of a list in ascending sorted order (how pandas
`groupby`/`crosstab` enumerate keys and labels). -/
def sortedDistinct (l : List PyVal) : List PyVal :=
  List.insertionSort pvLe l.dedup

/-- `define_batches_by_column`: KeyError when the column is absent;
otherwise one batch per distinct non-missing key value, in ascending
sorted key order (pandas `groupby` defaults `sort=True`, `dropna=True`:
rows whose key is NaN/None are silently dropped), each batch keeping the
matching rows in their original order. -/
def define_batches_by_column (df : DataFrame) (batch_col : String) :
    Except String (List DataFrame) :=
  match df.colIndex batch_col with
  | none => .error ("batch_col " ++ batch_col ++ " not found in dataframe.")
  | some i =>
    .ok ((sortedDistinct ((df.colAt i).filter (fun v => ! v.isNA))).map fun v =>
      { cols := df.cols, rows := df.rows.filter (fun r => r.getD i (.str "") = v) })

/-- Comparison used by `sort_values`: ascending or descending by the cell
of column `i`. -/
def rowLe (i : Nat) (ascending : Bool) (r₁ r₂ : List PyVal) : Prop :=
  if ascending then pvLe (r₁.getD i (.str "")) (r₂.getD i (.str ""))
  else pvLe (r₂.getD i (.str "")) (r₁.getD i (.str ""))

instance : ∀ i asc, DecidableRel (rowLe i asc) := fun i asc r₁ r₂ => by
  unfold rowLe; split <;> infer_instance

/-- `df.sort_values(by=col, ascending=...)` on the rows, given the index
of the ordering column. -/
def sortRowsBy (i : Nat) (ascending : Bool) (rows : List (List PyVal)) :
    List (List PyVal) :=
  List.insertionSort (rowLe i ascending) rows

/-- The `while start < n` loop of `sliding_window_batches`, with explicit
fuel.  `none` means the fuel ran out before the loop finished (with any
fuel — i.e. the loop diverges when `none` is returned by every fuel). -/
def swbAux (w s n : Nat) (l : List (List PyVal)) :
    Nat → Nat → List (List (List PyVal)) → Option (List (List (List PyVal)))
  | 0, _, _ => none
  | fuel + 1, start, acc =>
    if start < n then
      let e := min (start + w) n
      let acc' := acc ++ [(l.drop start).take (e - start)]
      if e = n then some acc' else swbAux w s n l fuel (start + s) acc'
    else some acc

/-- `sliding_window_batches`: sort by the time column (KeyError when
absent), then emit `iloc[start:end]` slices advancing by `step`.
`.ok none` means the loop does not terminate (possible when `step = 0`). -/
def sliding_window_batches (df : DataFrame) (time_col : String)
    (window_size : Nat) (step : Nat) (sort_ascending : Bool) :
    Except String (Option (List DataFrame)) :=
  match df.colIndex time_col with
  | none => .error ("KeyError: " ++ time_col)
  | some i =>
    let sorted := sortRowsBy i sort_ascending df.rows
    let n := sorted.length
    .ok ((swbAux window_size step n sorted (n + 1) 0 []).map
      (·.map fun rs => { cols := df.cols, rows := rs }))

/-- A contingency table as returned by `pd.crosstab`: the sorted distinct
row labels, the sorted distinct column labels, and the count matrix. -/
structure CTable where
  rowLabels : List PyVal
  colLabels : List PyVal
  cells : List (List Nat)
deriving DecidableEq, Repr

/-- `build_contingency_table`: KeyError when either column is absent,
otherwise the cross-tabulation counting co-occurrences over the observed
labels of the two columns.  `pd.crosstab` silently drops every record
whose value in either column is missing (NaN/None): only the fully
observed pairs contribute to labels and counts. -/
def build_contingency_table (df : DataFrame) (row col : String) :
    Except String CTable :=
  match df.colIndex row, df.colIndex col with
  | some i, some j =>
    let pairs := df.rows.map (fun r => (r.getD i (.str ""), r.getD j (.str "")))
    let obs := pairs.filter (fun p => ! p.1.isNA && ! p.2.isNA)
    let rl := sortedDistinct (obs.map Prod.fst)
    let cl := sortedDistinct (obs.map Prod.snd)
    .ok { rowLabels := rl, colLabels := cl,
          cells := rl.map (fun a => cl.map (fun b => obs.count (a, b))) }
  | _, _ => .error "Row/Col not present in dataframe."

/-- Sum of all cells of a count matrix. -/
def cellsTotal (t : List (List Nat)) : Nat := (t.map List.sum).sum

/-- Row margin `i` of a count matrix. -/
def rowMargin (t : List (List Nat)) (i : Nat) : Nat := (t.getD i []).sum

/-- Column margin `j` of a count matrix. -/
def colMargin (t : List (List Nat)) (j : Nat) : Nat :=
  (t.map (fun r => r.getD j 0)).sum

/-- Sum of all cells of a contingency table. -/
def CTable.total (t : CTable) : Nat := cellsTotal t.cells

/-- Result record of (the model of) `scipy.stats.chi2_contingency`.
`chi2 = none` / `p = none` model a NaN statistic, which arises exactly
when the table total is zero on a nonzero-size table. -/
structure Chi2Out where
  chi2 : Option ℚ
  p : Option ℚ
  dof : Nat
  expected : List (List ℚ)
deriving DecidableEq, Repr

/-- Sign function used by SciPy's Yates continuity correction. -/
def qsign (x : ℚ) : ℚ := if 0 < x then 1 else if x < 0 then -1 else 0

/-- One `(observed - expected)^2 / expected` term, with the observation
moved half a unit toward the expectation first when `yates` is set
(SciPy: `observed + 0.5 * sign(expected - observed)`). -/
def chi2Term (yates : Bool) (o : Nat) (e : ℚ) : ℚ :=
  let o' : ℚ := if yates then (o : ℚ) + 1/2 * qsign (e - (o : ℚ)) else (o : ℚ)
  (o' - e) ^ 2 / e

/-- Model of `scipy.stats.chi2_contingency` on a count matrix, following
SciPy's control flow; `sf stat dof` stands for the chi-square survival
function `1 - cdf`.  Errors: "No data" on a size-0 table, and the
zero-expected rejection (which SciPy only triggers when the total is
nonzero, since a zero total makes every expected entry NaN, and NaN ≠ 0). -/
def chi2_contingency (sf : ℚ → Nat → ℚ) (correction : Bool)
    (t : List (List Nat)) : Except String Chi2Out :=
  let R := t.length
  let C := (t.headD []).length
  if R = 0 ∨ C = 0 then
    .error "No data; `observed` has size 0."
  else
    let n := cellsTotal t
    let expected : List (List ℚ) :=
      (List.range R).map (fun i => (List.range C).map (fun j =>
        (rowMargin t i * colMargin t j : ℚ) / (n : ℚ)))
    -- `np.any(expected == 0)`: for `n ≠ 0` the entry `(i, j)` of the
    -- expected matrix is zero exactly when `rowMargin i * colMargin j = 0`
    -- (and for `n = 0` every entry is NaN, which never compares equal to 0),
    -- so the check is computed on the integer margins.
    if n ≠ 0 ∧ (List.range R).any (fun i => (List.range C).any (fun j =>
        rowMargin t i * colMargin t j == 0)) then
      .error "The internally computed table of expected frequencies has a zero element."
    else
      let dof := ((R * C : Int) - R - C + 1).toNat
      if dof = 0 then
        .ok { chi2 := some 0, p := some 1, dof := dof, expected := expected }
      else if n = 0 then
        .ok { chi2 := none, p := none, dof := dof, expected := expected }
      else
        let yates := correction && dof = 1
        let stat := ((List.range R).map (fun i => ((List.range C).map (fun j =>
          chi2Term yates ((t.getD i []).getD j 0)
            ((rowMargin t i * colMargin t j : ℚ) / (n : ℚ)))).sum)).sum
        .ok { chi2 := some stat, p := some (sf stat dof), dof := dof,
              expected := expected }

/-- `chi_square_test`: raises "Empty contingency table." when the pandas
table has size 0 (`len(index) * len(columns) = 0`), otherwise defers to
`chi2_contingency`. -/
def chi_square_test (sf : ℚ → Nat → ℚ) (t : CTable) (correction : Bool := true) :
    Except String Chi2Out :=
  if t.rowLabels.length * t.colLabels.length = 0 then
    .error "Empty contingency table."
  else
    chi2_contingency sf correction t.cells

/-- The value returned by `cramers_v`: NaN, an exact rational (the `k = 1`
branch returns the literal `0.0`), or `math.sqrt` of a rational. -/
inductive CVOut where
  | nan
  | num (q : ℚ)
  | root (radicand : ℚ)
deriving DecidableEq, Repr

/-- `cramers_v`: runs `chi2_contingency` (default correction), then
`n = 0 → NaN`, `k = min(R, C) = 1 → 0.0`, otherwise
`sqrt(chi2 / (n * (k - 1)))`.  A NaN chi2 statistic propagates to a NaN
result (`sqrt(nan) = nan`), though that branch is unreachable: `n ≠ 0`
forces a rational statistic. -/
def cramers_v (sf : ℚ → Nat → ℚ) (t : CTable) : Except String CVOut := do
  let out ← chi2_contingency sf true t.cells
  let n := t.total
  if n = 0 then
    pure .nan
  else
    let k := min t.rowLabels.length t.colLabels.length
    if k = 1 then
      pure (.num 0)
    else
      match out.chi2 with
      | some c => pure (.root (c / ((n : ℚ) * ((k : ℚ) - 1))))
      | none => pure .nan

/-- Result of the Fisher exact test. -/
structure FisherOut where
  oddsratio : ℚ
  p_value : ℚ
deriving DecidableEq, Repr

/-- `fisher_test_if_applicable`: runs `fisher_exact` (modelled by the
parameter `fe`, applied to the four cells) when the table shape is exactly
(2, 2); returns `none` otherwise. -/
def fisher_test_if_applicable (fe : Nat → Nat → Nat → Nat → ℚ × ℚ)
    (t : CTable) : Option FisherOut :=
  if t.rowLabels.length = 2 ∧ t.colLabels.length = 2 then
    let a := (t.cells.getD 0 []).getD 0 0
    let b := (t.cells.getD 0 []).getD 1 0
    let c := (t.cells.getD 1 []).getD 0 0
    let d := (t.cells.getD 1 []).getD 1 0
    some { oddsratio := (fe a b c d).1, p_value := (fe a b c d).2 }
  else none

/-- One row of the first pass of `pairwise_chi2_posthoc` (before the
Bonferroni pass fills in `p_adj` and `significant`). -/
structure RawPair where
  row1 : PyVal
  row2 : PyVal
  chi2 : Option ℚ
  p : Option ℚ
deriving DecidableEq, Repr

/-- One row of the result of `pairwise_chi2_posthoc`. -/
structure PosthocRow where
  row1 : PyVal
  row2 : PyVal
  chi2 : Option ℚ
  p : Option ℚ
  p_adj : Option ℚ
  significant : Bool
deriving DecidableEq, Repr

/-- The index pairs `(i, j)` with `i < j < R`, in the order of the nested
`for i / for j in range(i+1, ...)` loops. -/
def pairsList (R : Nat) : List (Nat × Nat) :=
  (List.range R).flatMap (fun i => (List.range' (i + 1) (R - (i + 1))).map (fun j => (i, j)))

/-- Effectful map in `Except` (a Python loop whose body may raise:
the first exception aborts the whole call). -/
def mapE (f : α → Except String β) : List α → Except String (List β)
  | [] => .ok []
  | a :: l => do
    let b ← f a
    let bs ← mapE f l
    pure (b :: bs)

/-- Python's `min(1.0, p * m)` on a possibly-NaN `p`: comparison with NaN
is `False`, so `min` returns its first argument `1.0`. -/
def pyMinOneMul (p : Option ℚ) (m : Nat) : Option ℚ :=
  match p with
  | some q => some (min 1 (q * (m : ℚ)))
  | none => some 1

/-- `pairwise_chi2_posthoc`: for every pair of distinct row categories,
runs `chi2_contingency` (default correction) on the 2×C sub-table of the
two rows, then applies the Bonferroni pass with `m` = number of pairs:
`p_adj = min(1, p * m)` (when `m > 0`) and `significant = p_adj < alpha`
(`False` when `p_adj` is NaN, which cannot happen since `pyMinOneMul`
always yields a number). -/
def pairwise_chi2_posthoc (sf : ℚ → Nat → ℚ) (t : CTable) (alpha : ℚ := 5/100) :
    Except String (List PosthocRow) := do
  let raw ← mapE (fun ij =>
      (chi2_contingency sf true [t.cells.getD ij.1 [], t.cells.getD ij.2 []]).map
        (fun out =>
          { row1 := t.rowLabels.getD ij.1 (.str ""),
            row2 := t.rowLabels.getD ij.2 (.str ""),
            chi2 := out.chi2, p := out.p : RawPair }))
    (pairsList t.rowLabels.length)
  let m := raw.length
  pure (raw.map (fun r =>
    let padj := if 0 < m then pyMinOneMul r.p m else r.p
    { row1 := r.row1, row2 := r.row2, chi2 := r.chi2, p := r.p,
      p_adj := padj,
      significant := match padj with
        | some q => decide (q < alpha)
        | none => false }))


/-- A trivial stand-in for the chi-square survival function, used to
instantiate the `sf` parameter in concrete statements. -/
def sfZero : ℚ → Nat → ℚ := fun _ _ => 0

/-! ### Sliding-window lemmas -/

example :
    sliding_window_batches ⟨["t"], [[.intV 3], [.intV 1], [.intV 2]]⟩ "t" 2 1 true =
      .ok (some [⟨["t"], [[.intV 1], [.intV 2]]⟩,
                 ⟨["t"], [[.intV 2], [.intV 3]]⟩]) := by rfl

example :
    build_contingency_table
      ⟨["R", "S"], [[.str "A", .str "x"], [.str "B", .str "y"], [.str "A", .str "x"]]⟩
      "R" "S" =
    .ok { rowLabels := [.str "A", .str "B"], colLabels := [.str "x", .str "y"],
          cells := [[2, 0], [0, 1]] } := by rfl


/-- An element at an index inside a `drop/take` slice is a member of the
slice. -/
theorem mem_drop_take (l : List α) (start j k : Nat) (hj : j < l.length)
    (h1 : start ≤ j) (h2 : j - start < k) : l[j] ∈ (l.drop start).take k := by
  have hlt : j - start < ((l.drop start).take k).length := by
    simp only [List.length_take, List.length_drop]
    omega
  have heq : ((l.drop start).take k)[j - start] = l[j] := by
    rw [List.getElem_take, List.getElem_drop]
    congr 1
    omega
  rw [← heq]
  exact List.getElem_mem hlt

/-- With `step = 0` and `window_size` smaller than the dataset, the
`while` loop of `sliding_window_batches` never finishes: no amount of fuel
reaches a result. -/
theorem swbAux_step_zero_diverges (w n : Nat) (l : List (List PyVal))
    (hw : w < n) : ∀ fuel acc, swbAux w 0 n l fuel 0 acc = none := by
  intro fuel
  induction fuel with
  | zero => intro acc; rfl
  | succ fuel ih =>
    intro acc
    have h0 : 0 < n := by omega
    have hmin : min (0 + w) n = w := by omega
    simp only [swbAux, h0, if_true, hmin]
    have hne : ¬ (w = n) := by omega
    simp only [hne, if_false, Nat.add_zero]
    exact ih _

/-- Main loop invariant of `sliding_window_batches` for `1 ≤ step ≤
window_size`: the loop terminates and returns the accumulated batches,
every batch is a nonempty slice of at most `window_size` records starting
`step` after the previous one, and every record from position `start` on
is covered by some batch. -/
theorem swbAux_ok (w s : Nat) (l : List (List PyVal)) (hs : 1 ≤ s) (hsw : s ≤ w) :
    ∀ fuel start acc, start < l.length → l.length - start ≤ fuel →
    ∃ bs, swbAux w s l.length l fuel start acc = some (acc ++ bs) ∧
      bs ≠ [] ∧
      (∀ b ∈ bs, b.length ≤ w ∧ b ≠ []) ∧
      (∀ k (hk : k < bs.length),
        bs[k] = (l.drop (start + k * s)).take (min w (l.length - (start + k * s)))) ∧
      (∀ j (hj : j < l.length), start ≤ j → ∃ b ∈ bs, l[j] ∈ b) := by
  intro fuel
  induction fuel with
  | zero => intro start acc hstart hfuel; omega
  | succ fuel ih =>
    intro start acc hstart hfuel
    by_cases he : min (start + w) l.length = l.length
    · -- final batch: reaches the end of the dataset
      refine ⟨[(l.drop start).take (min (start + w) l.length - start)], ?_, ?_, ?_, ?_, ?_⟩
      · simp only [swbAux, hstart, if_true, he, if_true]
      · simp
      · intro b hb
        simp only [List.mem_singleton] at hb
        subst hb
        constructor
        · simp only [List.length_take, List.length_drop]
          omega
        · rw [← List.length_pos]
          simp only [List.length_take, List.length_drop]
          omega
      · intro k hk
        simp only [List.length_singleton] at hk
        interval_cases k
        simp only [List.getElem_singleton, Nat.zero_mul, Nat.add_zero]
        congr 1
        omega
      · intro j hj hstartj
        refine ⟨_, List.mem_singleton_self _, ?_⟩
        exact mem_drop_take l start j _ hj hstartj (by omega)
    · -- the batch stops short of the end; recurse at start + step
      have hwlt : start + w < l.length := by omega
      have hmin : min (start + w) l.length = start + w := by omega
      have hstart' : start + s < l.length := by omega
      have hfuel' : l.length - (start + s) ≤ fuel := by omega
      obtain ⟨bs', hrun, _hne', hlen', hslice', hcov'⟩ :=
        ih (start + s) (acc ++ [(l.drop start).take (min (start + w) l.length - start)])
          hstart' hfuel'
      refine ⟨(l.drop start).take (min (start + w) l.length - start) :: bs', ?_, ?_, ?_, ?_, ?_⟩
      · simp only [swbAux, hstart, if_true, he, if_false, hrun, List.append_assoc,
          List.singleton_append]
      · simp
      · intro b hb
        rcases List.mem_cons.mp hb with hb | hb
        · subst hb
          constructor
          · simp only [List.length_take, List.length_drop]
            omega
          · rw [← List.length_pos]
            simp only [List.length_take, List.length_drop]
            omega
        · exact hlen' b hb
      · intro k hk
        match k with
        | 0 =>
          simp only [List.getElem_cons_zero, Nat.zero_mul, Nat.add_zero]
          congr 1
          omega
        | k + 1 =>
          simp only [List.getElem_cons_succ]
          have hk' : k < bs'.length := by
            simpa using Nat.lt_of_succ_lt_succ (by simpa using hk)
          rw [hslice' k hk']
          have harith : start + s + k * s = start + (k + 1) * s := by ring
          rw [harith]
      · intro j hj hstartj
        by_cases hjs : j < start + s
        · refine ⟨_, List.mem_cons_self _ _, ?_⟩
          exact mem_drop_take l start j _ hj hstartj (by omega)
        · obtain ⟨b, hb, hmem⟩ := hcov' j hj (by omega)
          exact ⟨b, List.mem_cons_of_mem _ hb, hmem⟩

/-- Claim C1, counterexample: `sliding_window_batches` performs no
validation of `step`.  Called with `step = 0` on a 2-record dataset with
`window_size = 5` it returns a batch list normally (it neither raises nor
rejects), refuting "a call with step == 0 is rejected/raises rather than
producing batches". -/
theorem claim_C1_counterexample :
    sliding_window_batches ⟨["t"], [[.intV 1], [.intV 2]]⟩ "t" 5 0 true =
      .ok (some [⟨["t"], [[.intV 1], [.intV 2]]⟩]) := by rfl

/-- Claim C1, amended: the sliding-window partitioner does not validate
`step`.  With `step = 0`, when `window_size` covers the whole dataset the
call returns a single batch (the sorted dataset) normally; when
`window_size` is smaller than the dataset the `while` loop never
terminates (no fuel bound suffices, modelled as `.ok none`). -/
theorem claim_C1 (df : DataFrame) (tc : String) (i w : Nat) (asc : Bool)
    (hci : df.colIndex tc = some i) :
    (1 ≤ df.rows.length → df.rows.length ≤ w →
      sliding_window_batches df tc w 0 asc =
        .ok (some [{ cols := df.cols, rows := sortRowsBy i asc df.rows }])) ∧
    (w < df.rows.length →
      (∀ fuel acc,
        swbAux w 0 (sortRowsBy i asc df.rows).length (sortRowsBy i asc df.rows)
          fuel 0 acc = none) ∧
      sliding_window_batches df tc w 0 asc = .ok none) := by
  have hlen : (sortRowsBy i asc df.rows).length = df.rows.length :=
    List.length_insertionSort _ _
  constructor
  · intro h1 h2
    simp only [sliding_window_batches, hci]
    have h0 : 0 < (sortRowsBy i asc df.rows).length := by omega
    have hmin : min (0 + w) (sortRowsBy i asc df.rows).length =
        (sortRowsBy i asc df.rows).length := by omega
    simp only [swbAux, h0, if_true, hmin, if_pos rfl, List.drop_zero, Nat.sub_zero,
      List.take_of_length_le (le_refl _), List.nil_append]
    rfl
  · intro hw
    have hdiv := swbAux_step_zero_diverges w (sortRowsBy i asc df.rows).length
      (sortRowsBy i asc df.rows) (by omega)
    refine ⟨hdiv, ?_⟩
    simp only [sliding_window_batches, hci, hdiv]
    rfl

/-- Claim C1, witness: both amended behaviours at concrete inputs: a
2-record frame with `window_size = 5, step = 0` yields one batch, and a
3-record frame with `window_size = 1, step = 0` diverges. -/
theorem claim_C1_witness :
    sliding_window_batches ⟨["t"], [[.intV 1], [.intV 2]]⟩ "t" 5 0 true =
      .ok (some [⟨["t"], [[.intV 1], [.intV 2]]⟩]) ∧
    sliding_window_batches ⟨["t"], [[.intV 1], [.intV 2], [.intV 3]]⟩ "t" 1 0 true =
      .ok none := by
  constructor
  · exact (claim_C1 ⟨["t"], [[.intV 1], [.intV 2]]⟩ "t" 0 5 true rfl).1
      (by decide) (by decide)
  · exact ((claim_C1 ⟨["t"], [[.intV 1], [.intV 2], [.intV 3]]⟩ "t" 0 1 true rfl).2
      (by decide)).2

/-- Claim C8, counterexample: with `step = 2 > window_size = 1` on a
sorted 3-record dataset the emitted batches are `[[1]]` and `[[3]]`: the
record `[2]` is in no batch, so the claimed coverage fails for a
`step ≥ 1`. -/
theorem claim_C8_counterexample :
    sliding_window_batches ⟨["t"], [[.intV 1], [.intV 2], [.intV 3]]⟩ "t" 1 2 true =
      .ok (some [⟨["t"], [[.intV 1]]⟩, ⟨["t"], [[.intV 3]]⟩]) ∧
    ¬ ∃ b ∈ [(⟨["t"], [[.intV 1]]⟩ : DataFrame), ⟨["t"], [[.intV 3]]⟩],
        [PyVal.intV 2] ∈ b.rows := by
  constructor
  · rfl
  · decide

/-- Claim C8, amended: for every dataset and `1 ≤ step ≤ window_size`,
the partitioner sorts by the ordering column (per flag) and emits the
slices `sorted[k*step : k*step + window_size]`; every batch is nonempty
with length at most `window_size` (in particular the last one), no empty
trailing batch is emitted, and the batches together cover every record.
(The original claim's coverage fails when `step > window_size`.) -/
theorem claim_C8 (df : DataFrame) (tc : String) (i w s : Nat) (asc : Bool)
    (hci : df.colIndex tc = some i) (hs : 1 ≤ s) (hsw : s ≤ w) :
    ∃ bs, sliding_window_batches df tc w s asc = .ok (some bs) ∧
      (∀ b ∈ bs, b.cols = df.cols ∧ b.rows.length ≤ w ∧ b.rows ≠ []) ∧
      (∀ k (hk : k < bs.length),
        bs[k].rows = ((sortRowsBy i asc df.rows).drop (k * s)).take
          (min w (df.rows.length - k * s))) ∧
      (∀ r ∈ df.rows, ∃ b ∈ bs, r ∈ b.rows) := by
  have hlen : (sortRowsBy i asc df.rows).length = df.rows.length :=
    List.length_insertionSort _ _
  by_cases hn : df.rows.length = 0
  · refine ⟨[], ?_, by simp, by simp, ?_⟩
    · simp only [sliding_window_batches, hci]
      have : ¬ (0 < (sortRowsBy i asc df.rows).length) := by omega
      simp only [swbAux, this, if_false]
      rfl
    · intro r hr
      rw [List.length_eq_zero] at hn
      simp [hn] at hr
  · obtain ⟨bs', hrun, _hne, hblen, hslice, hcov⟩ :=
      swbAux_ok w s (sortRowsBy i asc df.rows) hs hsw
        ((sortRowsBy i asc df.rows).length + 1) 0 [] (by omega) (by omega)
    refine ⟨bs'.map (fun rs => { cols := df.cols, rows := rs }), ?_, ?_, ?_, ?_⟩
    · simp only [sliding_window_batches, hci, hrun, List.nil_append]
      rfl
    · intro b hb
      obtain ⟨rs, hrs, rfl⟩ := List.mem_map.mp hb
      exact ⟨rfl, (hblen rs hrs).1, (hblen rs hrs).2⟩
    · intro k hk
      rw [List.length_map] at hk
      rw [List.getElem_map]
      have := hslice k hk
      simpa only [Nat.zero_add, hlen] using this
    · intro r hr
      have hr' : r ∈ sortRowsBy i asc df.rows :=
        ((List.perm_insertionSort _ _).mem_iff).mpr hr
      obtain ⟨j, hj, rfl⟩ := List.mem_iff_getElem.mp hr'
      obtain ⟨b, hb, hmem⟩ := hcov j hj (Nat.zero_le _)
      exact ⟨{ cols := df.cols, rows := b }, List.mem_map_of_mem _ hb, hmem⟩

/-- Claim C8, witness: concrete run with `window_size = 2, step = 1` on a
3-record unsorted frame. -/
theorem claim_C8_witness :
    ∃ bs, sliding_window_batches ⟨["t"], [[.intV 3], [.intV 1], [.intV 2]]⟩ "t" 2 1 true =
        .ok (some bs) ∧
      (∀ b ∈ bs, b.cols = ["t"] ∧ b.rows.length ≤ 2 ∧ b.rows ≠ []) ∧
      (∀ k (hk : k < bs.length),
        bs[k].rows = ((sortRowsBy 0 true [[.intV 3], [.intV 1], [.intV 2]]).drop (k * 1)).take
          (min 2 (3 - k * 1))) ∧
      (∀ r ∈ [[PyVal.intV 3], [PyVal.intV 1], [PyVal.intV 2]], ∃ b ∈ bs, r ∈ b.rows) :=
  claim_C8 ⟨["t"], [[.intV 3], [.intV 1], [.intV 2]]⟩ "t" 0 2 1 true rfl
    (by decide) (by decide)

/-- Claim C6: `fisher_test_if_applicable` returns a result if and only if
the table shape is exactly (2, 2); any other shape yields `None` (an
`Option`, i.e. a not-applicable signal rather than an error). -/
theorem claim_C6 (fe : Nat → Nat → Nat → Nat → ℚ × ℚ) (t : CTable) :
    (fisher_test_if_applicable fe t).isSome = true ↔
      (t.rowLabels.length = 2 ∧ t.colLabels.length = 2) := by
  constructor
  · intro h
    by_contra hc
    unfold fisher_test_if_applicable at h
    rw [if_neg hc] at h
    simp at h
  · intro hc
    unfold fisher_test_if_applicable
    rw [if_pos hc]
    rfl

/-- Claim C10: `pairwise_chi2_posthoc` is not total on valid tables: on
the 3×2 table [[1,0],[3,0],[0,2]] (all cells ≥ 0, R = 3 ≥ 2, total 6 > 0)
the pair (A, B) selects the sub-table [[1,0],[3,0]], whose second column
is all zero, so `chi2_contingency` raises on a zero expected frequency and
the whole call raises instead of returning a result set. -/
theorem claim_C10 :
    2 ≤ (⟨[.str "A", .str "B", .str "C"], [.str "x", .str "y"],
          [[1, 0], [3, 0], [0, 2]]⟩ : CTable).rowLabels.length ∧
    0 < (⟨[.str "A", .str "B", .str "C"], [.str "x", .str "y"],
          [[1, 0], [3, 0], [0, 2]]⟩ : CTable).total ∧
    pairwise_chi2_posthoc sfZero
        ⟨[.str "A", .str "B", .str "C"], [.str "x", .str "y"],
          [[1, 0], [3, 0], [0, 2]]⟩ (5/100) =
      .error "The internally computed table of expected frequencies has a zero element." :=
  ⟨by decide, by decide, by rfl⟩

/-- Claim C2, counterexample: on the 1×2 table [[0,5]] (total 5 ≠ 0,
k = min(R,C) = 1) `cramers_v` does not return 0.0: the underlying
`chi2_contingency` raises on the zero expected frequency produced by the
zero cell, so the call raises a ValueError. -/
theorem claim_C2_counterexample :
    min (⟨[.str "A"], [.str "x", .str "y"], [[0, 5]]⟩ : CTable).rowLabels.length
      (⟨[.str "A"], [.str "x", .str "y"], [[0, 5]]⟩ : CTable).colLabels.length = 1 ∧
    (⟨[.str "A"], [.str "x", .str "y"], [[0, 5]]⟩ : CTable).total ≠ 0 ∧
    cramers_v sfZero ⟨[.str "A"], [.str "x", .str "y"], [[0, 5]]⟩ =
      .error "The internally computed table of expected frequencies has a zero element." :=
  ⟨by decide, by decide, by rfl⟩

/-- Claim C4, counterexample: for the 2-record dataset with keys [B, A],
the by-key partitioner returns the batches in sorted key order [A, B],
not in first-occurrence order [B, A]. -/
theorem claim_C4_counterexample :
    define_batches_by_column ⟨["k"], [[.str "B"], [.str "A"]]⟩ "k" =
      .ok [⟨["k"], [[.str "A"]]⟩, ⟨["k"], [[.str "B"]]⟩] ∧
    [(⟨["k"], [[.str "A"]]⟩ : DataFrame), ⟨["k"], [[.str "B"]]⟩] ≠
      [⟨["k"], [[.str "B"]]⟩, ⟨["k"], [[.str "A"]]⟩] :=
  ⟨by rfl, by decide⟩

/-! ### Counting lemmas for contingency tables -/

theorem listSum_range {M : Type} [AddCommMonoid M] (f : Nat → M) :
    ∀ n, ((List.range n).map f).sum = ∑ i ∈ Finset.range n, f i
  | 0 => by simp
  | n + 1 => by
    rw [List.range_succ, List.map_append, List.sum_append, listSum_range f n,
      Finset.sum_range_succ]
    simp

theorem range_map_getD {α : Type} (l : List α) (d : α) :
    (List.range l.length).map (fun i => l.getD i d) = l := by
  induction l with
  | nil => rfl
  | cons a t ih =>
    rw [List.length_cons, List.range_succ_eq_map, List.map_cons, List.map_map]
    have : ((fun i => (a :: t).getD i d) ∘ Nat.succ) = fun i => t.getD i d := rfl
    rw [this, ih]
    rfl

theorem sum_count_of_nodup_of_subset {α : Type} [DecidableEq α] (keys l : List α)
    (hnd : keys.Nodup) (hsub : ∀ x ∈ l, x ∈ keys) :
    (keys.map (fun k => l.count k)).sum = l.length := by
  rw [← List.sum_toFinset _ hnd]
  have h := Multiset.sum_count_eq_card (s := keys.toFinset) (m := (l : Multiset α))
    (by intro a ha; rw [List.mem_toFinset]; exact hsub a (by simpa using ha))
  simpa [Multiset.coe_count] using h

theorem count_pair_eq_count_snd {α β : Type} [DecidableEq α] [DecidableEq β]
    (a : α) (b : β) :
    ∀ m : List (α × β), (∀ p ∈ m, p.1 = a) →
      m.count (a, b) = (m.map Prod.snd).count b := by
  intro m
  induction m with
  | nil => simp
  | cons p t ih =>
    intro h
    have hp : p.1 = a := h p (List.mem_cons_self p t)
    have ht := ih (fun q hq => h q (List.mem_cons_of_mem p hq))
    obtain ⟨a', b'⟩ := p
    simp only at hp
    subst hp
    rw [List.map_cons, List.count_cons, List.count_cons, ht]
    congr 1
    by_cases hb : b = b'
    · subst hb; simp
    · simp [hb]

theorem count_pair_eq_count_fst {α β : Type} [DecidableEq α] [DecidableEq β]
    (a : α) (b : β) :
    ∀ m : List (α × β), (∀ p ∈ m, p.2 = b) →
      m.count (a, b) = (m.map Prod.fst).count a := by
  intro m
  induction m with
  | nil => simp
  | cons p t ih =>
    intro h
    have hp : p.2 = b := h p (List.mem_cons_self p t)
    have ht := ih (fun q hq => h q (List.mem_cons_of_mem p hq))
    obtain ⟨a', b'⟩ := p
    simp only at hp
    subst hp
    rw [List.map_cons, List.count_cons, List.count_cons, ht]
    congr 1
    by_cases ha : a = a'
    · subst ha; simp
    · simp [ha]

theorem sum_counts_over_snd {α β : Type} [DecidableEq α] [DecidableEq β]
    (l : List (α × β)) (a : α) (cl : List β) (hcn : cl.Nodup)
    (hcm : ∀ p ∈ l, p.2 ∈ cl) :
    (cl.map (fun b => l.count (a, b))).sum =
      (l.filter (fun p => p.1 = a)).length := by
  have hstep : ∀ b : β,
      l.count (a, b) = ((l.filter (fun p => p.1 = a)).map Prod.snd).count b := by
    intro b
    rw [← count_pair_eq_count_snd a b _
      (fun p hp => by simpa using (List.mem_filter.mp hp).2)]
    exact (List.count_filter (by simp)).symm
  rw [List.map_congr_left (fun b _ => hstep b),
    sum_count_of_nodup_of_subset cl _ hcn ?_, List.length_map]
  intro x hx
  obtain ⟨p, hp, rfl⟩ := List.mem_map.mp hx
  exact hcm p (List.mem_of_mem_filter hp)

theorem sum_counts_over_fst {α β : Type} [DecidableEq α] [DecidableEq β]
    (l : List (α × β)) (b : β) (rl : List α) (hrn : rl.Nodup)
    (hrm : ∀ p ∈ l, p.1 ∈ rl) :
    (rl.map (fun a => l.count (a, b))).sum =
      (l.filter (fun p => p.2 = b)).length := by
  have hstep : ∀ a : α,
      l.count (a, b) = ((l.filter (fun p => p.2 = b)).map Prod.fst).count a := by
    intro a
    rw [← count_pair_eq_count_fst a b _
      (fun p hp => by simpa using (List.mem_filter.mp hp).2)]
    exact (List.count_filter (by simp)).symm
  rw [List.map_congr_left (fun a _ => hstep a),
    sum_count_of_nodup_of_subset rl _ hrn ?_, List.length_map]
  intro x hx
  obtain ⟨p, hp, rfl⟩ := List.mem_map.mp hx
  exact hrm p (List.mem_of_mem_filter hp)

theorem crosstab_cells_total {α β : Type} [DecidableEq α] [DecidableEq β]
    (l : List (α × β)) (rl : List α) (cl : List β)
    (hrn : rl.Nodup) (hcn : cl.Nodup)
    (hrm : ∀ p ∈ l, p.1 ∈ rl) (hcm : ∀ p ∈ l, p.2 ∈ cl) :
    (rl.map (fun a => (cl.map (fun b => l.count (a, b))).sum)).sum = l.length := by
  rw [List.map_congr_left (fun a _ => sum_counts_over_snd l a cl hcn hcm)]
  have hstep : ∀ a : α,
      (l.filter (fun p => p.1 = a)).length = (l.map Prod.fst).count a := by
    intro a
    rw [List.count_eq_countP, List.countP_map, ← List.countP_eq_length_filter]
    apply List.countP_congr
    intro p _
    simp [Function.comp]
  rw [List.map_congr_left (fun a _ => hstep a),
    sum_count_of_nodup_of_subset rl _ hrn ?_, List.length_map]
  intro x hx
  obtain ⟨p, hp, rfl⟩ := List.mem_map.mp hx
  exact hrm p hp

/-- The labels produced by `sortedDistinct` are exactly the values of the
input, without duplicates. -/
theorem sortedDistinct_nodup (l : List PyVal) : (sortedDistinct l).Nodup :=
  ((List.perm_insertionSort _ _).nodup_iff).mpr (List.nodup_dedup l)

theorem sortedDistinct_mem {x : PyVal} {l : List PyVal} :
    x ∈ sortedDistinct l ↔ x ∈ l :=
  ((List.perm_insertionSort _ _).mem_iff).trans List.mem_dedup

theorem filter_length_pos {γ : Type} (l : List γ) (p : γ → Bool) (x : γ)
    (hx : x ∈ l) (hp : p x = true) : 0 < (l.filter p).length := by
  rw [List.length_pos]
  intro hnil
  have := List.mem_filter.mpr ⟨hx, hp⟩
  rw [hnil] at this
  exact List.not_mem_nil _ this

theorem crosstab_rowMargin {α β : Type} [DecidableEq α] [DecidableEq β]
    (l : List (α × β)) (rl : List α) (cl : List β)
    (hcn : cl.Nodup) (hcm : ∀ p ∈ l, p.2 ∈ cl) (i' : Nat) (h : i' < rl.length) :
    rowMargin (rl.map (fun a => cl.map (fun b => l.count (a, b)))) i' =
      (l.filter (fun p => p.1 = rl[i'])).length := by
  unfold rowMargin
  rw [List.getD_eq_getElem _ _ (by simpa using h), List.getElem_map]
  exact sum_counts_over_snd l _ cl hcn hcm

theorem crosstab_colMargin {α β : Type} [DecidableEq α] [DecidableEq β]
    (l : List (α × β)) (rl : List α) (cl : List β)
    (hrn : rl.Nodup) (hrm : ∀ p ∈ l, p.1 ∈ rl) (j' : Nat) (h : j' < cl.length) :
    colMargin (rl.map (fun a => cl.map (fun b => l.count (a, b)))) j' =
      (l.filter (fun p => p.2 = cl[j'])).length := by
  unfold colMargin
  rw [List.map_map]
  have hcomp : ((fun r => r.getD j' 0) ∘ (fun a => cl.map (fun b => l.count (a, b)))) =
      fun a => l.count (a, cl[j']) := by
    funext a
    simp only [Function.comp]
    rw [List.getD_eq_getElem _ _ (by simpa using h), List.getElem_map]
  rw [hcomp]
  exact sum_counts_over_fst l _ rl hrn hrm

/-- Claim C3, counterexample: `pd.crosstab` silently drops records with
a missing value in either column, so records are lost: for the 1-record
dataset whose row-column value is NaN the built table is empty and its
cell sum is 0, not the record count 1. -/
theorem claim_C3_counterexample :
    build_contingency_table ⟨["R", "S"], [[.nanV, .str "x"]]⟩ "R" "S" =
      .ok ⟨[], [], []⟩ ∧
    (⟨[], [], []⟩ : CTable).total = 0 ∧
    (⟨["R", "S"], [[.nanV, .str "x"]]⟩ : DataFrame).rows.length = 1 :=
  ⟨by rfl, by rfl, by rfl⟩

/-- Claim C3, amended: for every dataset and every pair of columns
present in it, the sum of all cells of the built contingency table equals
the number of records whose values in both columns are non-missing
(`crosstab` drops the others); in particular it equals the full record
count whenever no value of the two columns is missing. -/
theorem claim_C3 (df : DataFrame) (row col : String) (i j : Nat)
    (hi : df.colIndex row = some i) (hj : df.colIndex col = some j) :
    ∃ t, build_contingency_table df row col = .ok t ∧
      t.total = (df.rows.filter (fun r =>
        ! (r.getD i (.str "")).isNA && ! (r.getD j (.str "")).isNA)).length ∧
      ((∀ r ∈ df.rows, (r.getD i (.str "")).isNA = false ∧
          (r.getD j (.str "")).isNA = false) →
        t.total = df.rows.length) := by
  have htot : ∀ t, build_contingency_table df row col = .ok t →
      t.total = (df.rows.filter (fun r =>
        ! (r.getD i (.str "")).isNA && ! (r.getD j (.str "")).isNA)).length := by
    intro t ht
    rw [build_contingency_table, hi, hj] at ht
    cases ht
    show CTable.total _ = _
    unfold CTable.total cellsTotal
    rw [List.map_map]
    have h := crosstab_cells_total
      ((df.rows.map (fun r => (r.getD i (.str ""), r.getD j (.str "")))).filter
        (fun p => ! p.1.isNA && ! p.2.isNA))
      (sortedDistinct (((df.rows.map (fun r => (r.getD i (.str ""), r.getD j (.str "")))).filter
        (fun p => ! p.1.isNA && ! p.2.isNA)).map Prod.fst))
      (sortedDistinct (((df.rows.map (fun r => (r.getD i (.str ""), r.getD j (.str "")))).filter
        (fun p => ! p.1.isNA && ! p.2.isNA)).map Prod.snd))
      (sortedDistinct_nodup _) (sortedDistinct_nodup _)
      (fun p hp => sortedDistinct_mem.mpr (List.mem_map_of_mem _ hp))
      (fun p hp => sortedDistinct_mem.mpr (List.mem_map_of_mem _ hp))
    have hlen : ((df.rows.map (fun r => (r.getD i (.str ""), r.getD j (.str "")))).filter
        (fun p => ! p.1.isNA && ! p.2.isNA)).length =
        (df.rows.filter (fun r =>
          ! (r.getD i (.str "")).isNA && ! (r.getD j (.str "")).isNA)).length := by
      rw [List.filter_map, List.length_map]
      rfl
    exact h.trans hlen
  refine ⟨_, by rw [build_contingency_table, hi, hj], ?_, ?_⟩
  · exact htot _ (by rw [build_contingency_table, hi, hj])
  · intro hall
    rw [htot _ (by rw [build_contingency_table, hi, hj])]
    have : df.rows.filter (fun r =>
        ! (r.getD i (.str "")).isNA && ! (r.getD j (.str "")).isNA) = df.rows := by
      rw [List.filter_eq_self]
      intro r hr
      rw [(hall r hr).1, (hall r hr).2]
      rfl
    rw [this]

/-- Claim C3, witness: the 3-record dataset with no missing values: the
cell sum equals both the fully-observed count and the record count 3. -/
theorem claim_C3_witness :
    ∃ t, build_contingency_table
        ⟨["R", "S"], [[.str "A", .str "x"], [.str "B", .str "y"], [.str "A", .str "x"]]⟩
        "R" "S" = .ok t ∧
      t.total = (([[PyVal.str "A", PyVal.str "x"], [PyVal.str "B", PyVal.str "y"],
        [PyVal.str "A", PyVal.str "x"]] : List (List PyVal)).filter (fun r =>
        ! (r.getD 0 (.str "")).isNA && ! (r.getD 1 (.str "")).isNA)).length ∧
      ((∀ r ∈ ([[PyVal.str "A", PyVal.str "x"], [PyVal.str "B", PyVal.str "y"],
          [PyVal.str "A", PyVal.str "x"]] : List (List PyVal)),
          (r.getD 0 (.str "")).isNA = false ∧ (r.getD 1 (.str "")).isNA = false) →
        t.total = 3) :=
  claim_C3 ⟨["R", "S"], [[.str "A", .str "x"], [.str "B", .str "y"], [.str "A", .str "x"]]⟩
    "R" "S" 0 1 rfl rfl

/-! ### Margins and expected frequencies -/

theorem getD_sum_range (r : List Nat) :
    ∑ j ∈ Finset.range r.length, r.getD j 0 = r.sum := by
  rw [← listSum_range, range_map_getD]

theorem sum_rowMargins (t : List (List Nat)) :
    ∑ i ∈ Finset.range t.length, rowMargin t i = cellsTotal t := by
  rw [← listSum_range]
  unfold rowMargin cellsTotal
  have : (List.range t.length).map (fun i => (t.getD i []).sum) =
      ((List.range t.length).map (fun i => t.getD i [])).map List.sum := by
    rw [List.map_map]; rfl
  rw [this, range_map_getD]

theorem sum_colMargins (t : List (List Nat)) (C : Nat)
    (hC : ∀ r ∈ t, r.length = C) :
    ∑ j ∈ Finset.range C, colMargin t j = cellsTotal t := by
  have hinner : ∀ j, colMargin t j = ∑ i ∈ Finset.range t.length, (t.getD i []).getD j 0 := by
    intro j
    unfold colMargin
    conv_lhs => rw [← range_map_getD t []]
    rw [List.map_map, ← listSum_range]
    rfl
  calc ∑ j ∈ Finset.range C, colMargin t j
      = ∑ j ∈ Finset.range C, ∑ i ∈ Finset.range t.length, (t.getD i []).getD j 0 := by
        exact Finset.sum_congr rfl (fun j _ => hinner j)
    _ = ∑ i ∈ Finset.range t.length, ∑ j ∈ Finset.range C, (t.getD i []).getD j 0 :=
        Finset.sum_comm
    _ = ∑ i ∈ Finset.range t.length, rowMargin t i := by
        apply Finset.sum_congr rfl
        intro i hi
        rw [Finset.mem_range] at hi
        have hlen : (t.getD i []).length = C := by
          rw [List.getD_eq_getElem _ _ hi]
          exact hC _ (List.getElem_mem hi)
        rw [← hlen, getD_sum_range]
        rfl
    _ = cellsTotal t := sum_rowMargins t

/-- One row of the expected-frequency matrix sums to the corresponding
observed row margin (exactly, over ℚ). -/
theorem expected_row_sum_core (t : List (List Nat)) (C : Nat)
    (hC : ∀ r ∈ t, r.length = C) (hn : cellsTotal t ≠ 0) (i' : Nat) :
    ((List.range C).map (fun j =>
        (rowMargin t i' * colMargin t j : ℚ) / (cellsTotal t : ℚ))).sum =
      (rowMargin t i' : ℚ) := by
  rw [listSum_range]
  have : ∀ j ∈ Finset.range C,
      (rowMargin t i' * colMargin t j : ℚ) / (cellsTotal t : ℚ) =
      (rowMargin t i' : ℚ) * (colMargin t j : ℚ) / (cellsTotal t : ℚ) := by
    intro j _
    ring
  rw [Finset.sum_congr rfl this, ← Finset.sum_div, ← Finset.mul_sum]
  have hsum : ∑ j ∈ Finset.range C, (colMargin t j : ℚ) = (cellsTotal t : ℚ) := by
    rw [← Nat.cast_sum, sum_colMargins t C hC]
  rw [hsum]
  exact mul_div_cancel_right₀ _ (by exact_mod_cast hn)

/-- Row sums of the expected-frequency matrix equal the observed row
margins (exactly, over ℚ). -/
theorem expected_row_sum (t : List (List Nat)) (C : Nat)
    (hC : ∀ r ∈ t, r.length = C) (hn : cellsTotal t ≠ 0)
    (i' : Nat) (hi' : i' < t.length) :
    (((List.range t.length).map (fun i => (List.range C).map (fun j =>
        (rowMargin t i * colMargin t j : ℚ) / (cellsTotal t : ℚ)))).getD i' []).sum =
      (rowMargin t i' : ℚ) := by
  rw [List.getD_eq_getElem _ _ (by simpa using hi'), List.getElem_map,
    List.getElem_range]
  exact expected_row_sum_core t C hC hn i'

/-- Column sums of the expected-frequency matrix equal the observed
column margins (exactly, over ℚ). -/
theorem expected_col_sum (t : List (List Nat)) (C : Nat)
    (hn : cellsTotal t ≠ 0) (j' : Nat) (hj' : j' < C) :
    (((List.range t.length).map (fun i => (List.range C).map (fun j =>
        (rowMargin t i * colMargin t j : ℚ) / (cellsTotal t : ℚ)))).map
      (fun r => r.getD j' 0)).sum = (colMargin t j' : ℚ) := by
  rw [List.map_map]
  have hcomp : ((fun r => List.getD r j' 0) ∘ (fun i => (List.range C).map (fun j =>
      (rowMargin t i * colMargin t j : ℚ) / (cellsTotal t : ℚ)))) =
      fun i => (rowMargin t i * colMargin t j' : ℚ) / (cellsTotal t : ℚ) := by
    funext i
    simp only [Function.comp]
    rw [List.getD_eq_getElem _ _ (by simpa using hj'), List.getElem_map,
      List.getElem_range]
  rw [hcomp, listSum_range]
  have : ∀ i ∈ Finset.range t.length,
      (rowMargin t i * colMargin t j' : ℚ) / (cellsTotal t : ℚ) =
      (colMargin t j' : ℚ) * (rowMargin t i : ℚ) / (cellsTotal t : ℚ) := by
    intro i _
    ring
  rw [Finset.sum_congr rfl this, ← Finset.sum_div, ← Finset.mul_sum]
  have hsum : ∑ i ∈ Finset.range t.length, (rowMargin t i : ℚ) = (cellsTotal t : ℚ) := by
    rw [← Nat.cast_sum, sum_rowMargins t]
  rw [hsum]
  exact mul_div_cancel_right₀ _ (by exact_mod_cast hn)

/-- The expected-frequency matrix sums to the observed total (exactly,
over ℚ). -/
theorem expected_total (t : List (List Nat)) (C : Nat)
    (hC : ∀ r ∈ t, r.length = C) (hn : cellsTotal t ≠ 0) :
    (((List.range t.length).map (fun i => (List.range C).map (fun j =>
        (rowMargin t i * colMargin t j : ℚ) / (cellsTotal t : ℚ)))).map
      List.sum).sum = (cellsTotal t : ℚ) := by
  rw [List.map_map, listSum_range]
  have : ∀ i ∈ Finset.range t.length,
      (List.sum ∘ (fun i => (List.range C).map (fun j =>
        (rowMargin t i * colMargin t j : ℚ) / (cellsTotal t : ℚ)))) i =
      (rowMargin t i : ℚ) := by
    intro i _
    exact expected_row_sum_core t C hC hn i
  rw [Finset.sum_congr rfl this, ← Nat.cast_sum, sum_rowMargins t]

/-- On a table with positive row and column margins, (the model of)
`chi2_contingency` succeeds: no exception is raised, the degrees of
freedom are `(R-1)(C-1)`, the expected matrix is the outer product of the
margins over the total, and both the statistic and the p-value are
numbers (not NaN). -/
theorem chi2_contingency_ok (sf : ℚ → Nat → ℚ) (correction : Bool)
    (t : List (List Nat)) (C : Nat)
    (hC : ∀ r ∈ t, r.length = C) (hR0 : 0 < t.length) (hC0 : 0 < C)
    (hrm : ∀ i < t.length, 0 < rowMargin t i)
    (hcm : ∀ j < C, 0 < colMargin t j) :
    ∃ out, chi2_contingency sf correction t = .ok out ∧
      out.dof = (t.length - 1) * (C - 1) ∧
      out.expected = (List.range t.length).map (fun i => (List.range C).map (fun j =>
        (rowMargin t i * colMargin t j : ℚ) / (cellsTotal t : ℚ))) ∧
      ∃ q p', out.chi2 = some q ∧ out.p = some p' := by
  have hhead : (t.headD []).length = C := by
    match t, hR0 with
    | r :: t', _ => exact hC r (List.mem_cons_self r t')
  have hn : 0 < cellsTotal t := by
    have h0 := hrm 0 hR0
    match t with
    | r :: t' =>
      have : rowMargin (r :: t') 0 = r.sum := rfl
      unfold cellsTotal
      rw [List.map_cons, List.sum_cons]
      omega
  have hany : ((List.range t.length).any (fun i => (List.range C).any (fun j =>
      rowMargin t i * colMargin t j == 0))) = false := by
    rw [List.any_eq_false]
    intro i hi
    rw [Bool.not_eq_true, List.any_eq_false]
    intro j hj
    rw [List.mem_range] at hi hj
    have h1 := hrm i hi
    have h2 := hcm j hj
    rw [Bool.not_eq_true, beq_eq_false_iff_ne]
    intro hz
    rw [Nat.mul_eq_zero] at hz
    omega
  have hdof : (((t.length * C : Int) - t.length - C + 1)).toNat =
      (t.length - 1) * (C - 1) := by
    obtain ⟨r, hr⟩ : ∃ r, t.length = r + 1 := ⟨t.length - 1, by omega⟩
    obtain ⟨c, hc⟩ : ∃ c, C = c + 1 := ⟨C - 1, by omega⟩
    rw [hr, hc]
    have h1 : ((r + 1 : Nat) : Int) * ((c + 1 : Nat) : Int) - ((r + 1 : Nat) : Int) -
        ((c + 1 : Nat) : Int) + 1 = ((r * c : Nat) : Int) := by
      push_cast
      ring
    rw [h1, Int.toNat_natCast]
    simp
  simp only [chi2_contingency, hhead]
  rw [if_neg (by omega)]
  rw [if_neg (by
    intro hcontr
    rw [hany] at hcontr
    simpa using hcontr.2)]
  rw [hdof]
  by_cases hd0 : (t.length - 1) * (C - 1) = 0
  · rw [if_pos hd0]
    exact ⟨_, rfl, by simp [hd0], rfl, 0, 1, rfl, rfl⟩
  · rw [if_neg hd0, if_neg (by omega)]
    exact ⟨_, rfl, rfl, rfl, _, _, rfl, rfl⟩

/-- Structure of a table built by `build_contingency_table` from a
dataset with at least one fully observed record (both values non-missing;
`crosstab` drops the rest): rectangular cells indexed by the label lists
and strictly positive row and column margins (every label was observed). -/
theorem built_table_spec (df : DataFrame) (row col : String) (i j : Nat)
    (hi : df.colIndex row = some i) (hj : df.colIndex col = some j)
    (hobs : ∃ r ∈ df.rows, (r.getD i (.str "")).isNA = false ∧
      (r.getD j (.str "")).isNA = false) :
    ∃ t, build_contingency_table df row col = .ok t ∧
      t.cells.length = t.rowLabels.length ∧
      (∀ r ∈ t.cells, r.length = t.colLabels.length) ∧
      0 < t.rowLabels.length ∧ 0 < t.colLabels.length ∧
      (∀ i' < t.rowLabels.length, 0 < rowMargin t.cells i') ∧
      (∀ j' < t.colLabels.length, 0 < colMargin t.cells j') := by
  have hbuild : build_contingency_table df row col = .ok
      { rowLabels := sortedDistinct (((df.rows.map (fun r =>
          (r.getD i (.str ""), r.getD j (.str "")))).filter
            (fun p => ! p.1.isNA && ! p.2.isNA)).map Prod.fst),
        colLabels := sortedDistinct (((df.rows.map (fun r =>
          (r.getD i (.str ""), r.getD j (.str "")))).filter
            (fun p => ! p.1.isNA && ! p.2.isNA)).map Prod.snd),
        cells := (sortedDistinct (((df.rows.map (fun r =>
            (r.getD i (.str ""), r.getD j (.str "")))).filter
              (fun p => ! p.1.isNA && ! p.2.isNA)).map Prod.fst)).map (fun a =>
          (sortedDistinct (((df.rows.map (fun r =>
            (r.getD i (.str ""), r.getD j (.str "")))).filter
              (fun p => ! p.1.isNA && ! p.2.isNA)).map Prod.snd)).map (fun b =>
          ((df.rows.map (fun r => (r.getD i (.str ""), r.getD j (.str "")))).filter
            (fun p => ! p.1.isNA && ! p.2.isNA)).count (a, b))) } := by
    rw [build_contingency_table, hi, hj]
  obtain ⟨x, hx, hx1, hx2⟩ := hobs
  have hxobs : (x.getD i (.str ""), x.getD j (.str "")) ∈
      (df.rows.map (fun r => (r.getD i (.str ""), r.getD j (.str "")))).filter
        (fun p => ! p.1.isNA && ! p.2.isNA) := by
    apply List.mem_filter.mpr
    refine ⟨List.mem_map_of_mem _ hx, ?_⟩
    show (! (x.getD i (.str ""), x.getD j (.str "")).1.isNA &&
      ! (x.getD i (.str ""), x.getD j (.str "")).2.isNA) = true
    rw [show (x.getD i (.str ""), x.getD j (.str "")).1 = x.getD i (.str "") from rfl,
      show (x.getD i (.str ""), x.getD j (.str "")).2 = x.getD j (.str "") from rfl,
      hx1, hx2]
    rfl
  refine ⟨_, hbuild, List.length_map _ _, ?_, ?_, ?_, ?_, ?_⟩
  · intro r hr
    obtain ⟨a, _, rfl⟩ := List.mem_map.mp hr
    exact List.length_map _ _
  · apply List.length_pos.mpr
    apply List.ne_nil_of_mem (a := (x.getD i (.str ""), x.getD j (.str "")).1)
    exact sortedDistinct_mem.mpr (List.mem_map_of_mem _ hxobs)
  · apply List.length_pos.mpr
    apply List.ne_nil_of_mem (a := (x.getD i (.str ""), x.getD j (.str "")).2)
    exact sortedDistinct_mem.mpr (List.mem_map_of_mem _ hxobs)
  · intro i' hi'
    rw [crosstab_rowMargin _ _ _ (sortedDistinct_nodup _)
      (fun p hp => sortedDistinct_mem.mpr (List.mem_map_of_mem _ hp)) i' hi']
    have hlab := sortedDistinct_mem.mp
      (List.getElem_mem (l := sortedDistinct (((df.rows.map (fun r =>
        (r.getD i (.str ""), r.getD j (.str "")))).filter
          (fun p => ! p.1.isNA && ! p.2.isNA)).map Prod.fst)) (by simpa using hi'))
    obtain ⟨p, hp, hfst⟩ := List.mem_map.mp hlab
    exact filter_length_pos _ _ p hp (by simpa using hfst)
  · intro j' hj'
    rw [crosstab_colMargin _ _ _ (sortedDistinct_nodup _)
      (fun p hp => sortedDistinct_mem.mpr (List.mem_map_of_mem _ hp)) j' hj']
    have hlab := sortedDistinct_mem.mp
      (List.getElem_mem (l := sortedDistinct (((df.rows.map (fun r =>
        (r.getD i (.str ""), r.getD j (.str "")))).filter
          (fun p => ! p.1.isNA && ! p.2.isNA)).map Prod.snd)) (by simpa using hj'))
    obtain ⟨p, hp, hsnd⟩ := List.mem_map.mp hlab
    exact filter_length_pos _ _ p hp (by simpa using hsnd)

/-- Claim C7: for every contingency table built from a dataset with at
least one fully observed record (such tables are nonempty and have
positive margins, every label being observed), `chi_square_test` returns
`dof = (R-1)*(C-1)`, and its expected-frequency matrix has exactly (over
ℚ, hence within any floating tolerance) the observed total and the
observed row and column margins. -/
theorem claim_C7 (sf : ℚ → Nat → ℚ) (correction : Bool) (df : DataFrame)
    (row col : String) (i j : Nat)
    (hi : df.colIndex row = some i) (hj : df.colIndex col = some j)
    (hobs : ∃ r ∈ df.rows, (r.getD i (.str "")).isNA = false ∧
      (r.getD j (.str "")).isNA = false) :
    ∃ t out, build_contingency_table df row col = .ok t ∧
      chi_square_test sf t correction = .ok out ∧
      out.dof = (t.rowLabels.length - 1) * (t.colLabels.length - 1) ∧
      (out.expected.map List.sum).sum = (t.total : ℚ) ∧
      (∀ i' < t.rowLabels.length,
        (out.expected.getD i' []).sum = (rowMargin t.cells i' : ℚ)) ∧
      (∀ j' < t.colLabels.length,
        (out.expected.map (fun r => r.getD j' 0)).sum = (colMargin t.cells j' : ℚ)) := by
  obtain ⟨t, hbuild, hlen, hrect, hR0, hC0, hrm, hcm⟩ :=
    built_table_spec df row col i j hi hj hobs
  have hn0 : cellsTotal t.cells ≠ 0 := by
    have hpos := hrm 0 hR0
    have hsum := sum_rowMargins t.cells
    intro hz
    rw [hz] at hsum
    have hmem : (0 : Nat) ∈ Finset.range t.cells.length :=
      Finset.mem_range.mpr (by omega)
    have := Finset.sum_eq_zero_iff.mp hsum 0 hmem
    omega
  obtain ⟨out, hrun, hdof, hexp, q, p', hq, hp'⟩ :=
    chi2_contingency_ok sf correction t.cells t.colLabels.length hrect
      (by omega) hC0 (by rw [hlen]; exact hrm) hcm
  refine ⟨t, out, hbuild, ?_, by rw [hdof, hlen], ?_, ?_, ?_⟩
  · unfold chi_square_test
    rw [if_neg (by
      intro hz
      rw [Nat.mul_eq_zero] at hz
      omega)]
    exact hrun
  · show (out.expected.map List.sum).sum = ((cellsTotal t.cells : Nat) : ℚ)
    rw [hexp]
    exact expected_total t.cells t.colLabels.length hrect hn0
  · intro i' hi'
    rw [hexp]
    exact expected_row_sum t.cells t.colLabels.length hrect hn0 i' (by omega)
  · intro j' hj'
    rw [hexp]
    exact expected_col_sum t.cells t.colLabels.length hn0 j' hj'

/-- Claim C7, witness: the 3-record example dataset (no missing values),
default correction. -/
theorem claim_C7_witness :
    ∃ t out, build_contingency_table
        ⟨["R", "S"], [[.str "A", .str "x"], [.str "B", .str "y"], [.str "A", .str "x"]]⟩
        "R" "S" = .ok t ∧
      chi_square_test sfZero t true = .ok out ∧
      out.dof = (t.rowLabels.length - 1) * (t.colLabels.length - 1) ∧
      (out.expected.map List.sum).sum = (t.total : ℚ) ∧
      (∀ i' < t.rowLabels.length,
        (out.expected.getD i' []).sum = (rowMargin t.cells i' : ℚ)) ∧
      (∀ j' < t.colLabels.length,
        (out.expected.map (fun r => r.getD j' 0)).sum = (colMargin t.cells j' : ℚ)) :=
  claim_C7 sfZero true
    ⟨["R", "S"], [[.str "A", .str "x"], [.str "B", .str "y"], [.str "A", .str "x"]]⟩
    "R" "S" 0 1 rfl rfl (by decide)

/-- On a nonzero-size table with zero total, `chi2_contingency` does not
raise: every expected entry is NaN (never equal to 0), so the zero-expected
rejection is skipped and a result (with NaN statistic unless `dof = 0`) is
returned. -/
theorem chi2_contingency_zero_total (sf : ℚ → Nat → ℚ) (correction : Bool)
    (t : List (List Nat)) (C : Nat) (hC : (t.headD []).length = C)
    (hR0 : 0 < t.length) (hC0 : 0 < C) (hn : cellsTotal t = 0) :
    ∃ out, chi2_contingency sf correction t = .ok out := by
  simp only [chi2_contingency, hC]
  rw [if_neg (by omega)]
  rw [if_neg (by intro h; exact h.1 hn)]
  by_cases hd0 : ((t.length * C : Int) - t.length - C + 1).toNat = 0
  · rw [if_pos hd0]
    exact ⟨_, rfl⟩
  · rw [if_neg hd0, if_pos hn]
    exact ⟨_, rfl⟩

/-- Claim C2, amended: `cramers_v` returns NaN on a zero-total table only
when the table has nonzero size (the 0-size table raises "No data"
instead), and returns exactly 0.0 when `k = min(R, C) = 1` provided the
table's margins are positive (otherwise the underlying `chi2_contingency`
raises on a zero expected frequency, as in the counterexample). -/
theorem claim_C2 (sf : ℚ → Nat → ℚ) (t : CTable)
    (hlen : t.cells.length = t.rowLabels.length)
    (hrect : ∀ r ∈ t.cells, r.length = t.colLabels.length) :
    (t.cells = [] → cramers_v sf t = .error "No data; `observed` has size 0.") ∧
    (0 < t.rowLabels.length → 0 < t.colLabels.length → t.total = 0 →
      cramers_v sf t = .ok .nan) ∧
    ((∀ i < t.rowLabels.length, 0 < rowMargin t.cells i) →
      (∀ j < t.colLabels.length, 0 < colMargin t.cells j) →
      min t.rowLabels.length t.colLabels.length = 1 →
      cramers_v sf t = .ok (.num 0)) := by
  refine ⟨?_, ?_, ?_⟩
  · intro hnil
    simp [cramers_v, chi2_contingency, hnil, Bind.bind, Except.bind]
  · intro hR0 hC0 hn
    have hR0' : 0 < t.cells.length := by omega
    have hne2 : t.cells ≠ [] := by
      intro h
      rw [h] at hR0'
      simp at hR0'
    obtain ⟨r, rest, hcc⟩ := List.exists_cons_of_ne_nil hne2
    have hhead : (t.cells.headD []).length = t.colLabels.length := by
      rw [hcc]
      exact hrect r (by rw [hcc]; exact List.mem_cons_self r rest)
    obtain ⟨out, hchi⟩ := chi2_contingency_zero_total sf true t.cells
      t.colLabels.length hhead hR0' hC0 hn
    simp only [cramers_v, hchi, Bind.bind, Except.bind]
    rw [if_pos hn]
    rfl
  · intro hrm hcm hk
    have hR0 : 0 < t.rowLabels.length := by omega
    have hC0 : 0 < t.colLabels.length := by omega
    obtain ⟨out, hchi, _, _, _, _, _, _⟩ :=
      chi2_contingency_ok sf true t.cells t.colLabels.length hrect
        (by omega) hC0 (by rw [hlen]; exact hrm) hcm
    have hn0 : t.total ≠ 0 := by
      have hpos := hrm 0 hR0
      have hsum := sum_rowMargins t.cells
      intro hz
      have hz' : cellsTotal t.cells = 0 := hz
      rw [hz'] at hsum
      have hmem : (0 : Nat) ∈ Finset.range t.cells.length :=
        Finset.mem_range.mpr (by omega)
      have := Finset.sum_eq_zero_iff.mp hsum 0 hmem
      omega
    simp only [cramers_v, hchi, Bind.bind, Except.bind]
    rw [if_neg hn0, if_pos hk]
    rfl

/-- Claim C2, witness: the NaN branch on the all-zero 2×2 table and the
0.0 branch on the 1×2 table [[2,5]] with positive margins. -/
theorem claim_C2_witness :
    cramers_v sfZero ⟨[.str "A", .str "B"], [.str "x", .str "y"], [[0, 0], [0, 0]]⟩ =
      .ok .nan ∧
    cramers_v sfZero ⟨[.str "A"], [.str "x", .str "y"], [[2, 5]]⟩ =
      .ok (.num 0) := by
  constructor
  · exact (claim_C2 sfZero ⟨[.str "A", .str "B"], [.str "x", .str "y"], [[0, 0], [0, 0]]⟩
      (by decide) (by decide)).2.1 (by decide) (by decide) (by decide)
  · exact (claim_C2 sfZero ⟨[.str "A"], [.str "x", .str "y"], [[2, 5]]⟩
      (by decide) (by decide)).2.2 (by decide) (by decide) (by decide)

theorem sum_range_sub_succ : ∀ R : Nat,
    ∑ i ∈ Finset.range R, (R - (i + 1)) = R.choose 2
  | 0 => by simp
  | n + 1 => by
    rw [Finset.sum_range_succ]
    have hcong : ∀ i ∈ Finset.range n, n + 1 - (i + 1) = (n - (i + 1)) + 1 :=
      fun i hi => by rw [Finset.mem_range] at hi; omega
    rw [Finset.sum_congr rfl hcong, Finset.sum_add_distrib, sum_range_sub_succ n]
    simp only [Finset.sum_const, Finset.card_range, smul_eq_mul, mul_one]
    have h2 : (n + 1).choose 2 = n.choose 1 + n.choose 2 := Nat.choose_succ_succ n 1
    rw [h2, Nat.choose_one_right]
    omega

theorem pairsList_mem {R i j : Nat} : (i, j) ∈ pairsList R ↔ i < j ∧ j < R := by
  unfold pairsList
  rw [List.mem_flatMap]
  constructor
  · rintro ⟨a, ha, hmem⟩
    rw [List.mem_map] at hmem
    obtain ⟨b, hb, heq⟩ := hmem
    cases heq
    rw [List.mem_range] at ha
    rw [List.mem_range'_1] at hb
    omega
  · rintro ⟨hij, hjR⟩
    exact ⟨i, List.mem_range.mpr (by omega),
      List.mem_map.mpr ⟨j, List.mem_range'_1.mpr (by omega), rfl⟩⟩

theorem pairsList_length (R : Nat) : (pairsList R).length = R.choose 2 := by
  unfold pairsList
  rw [List.length_flatMap]
  have hmp : ((List.range R).map (List.length ∘ (fun i =>
      (List.range' (i + 1) (R - (i + 1))).map (fun j => (i, j))))).sum =
      ((List.range R).map (fun i => R - (i + 1))).sum := by
    apply congrArg
    apply List.map_congr_left
    intro a _
    simp [List.length_range']
  rw [hmp, listSum_range]
  exact sum_range_sub_succ R

theorem mapE_ok {α β : Type} {f : α → Except String β} {P : β → Prop} :
    ∀ l : List α, (∀ a ∈ l, ∃ b, f a = .ok b ∧ P b) →
    ∃ bs, mapE f l = .ok bs ∧ bs.length = l.length ∧ ∀ b ∈ bs, P b := by
  intro l
  induction l with
  | nil => exact fun _ => ⟨[], rfl, rfl, by simp⟩
  | cons a l ih =>
    intro h
    obtain ⟨b, hfa, hPb⟩ := h a (List.mem_cons_self a l)
    obtain ⟨bs, hrun, hl, hP⟩ := ih (fun x hx => h x (List.mem_cons_of_mem a hx))
    refine ⟨b :: bs, ?_, by simp [hl], ?_⟩
    · simp only [mapE, hfa, hrun, Bind.bind, Except.bind]
      rfl
    · intro c hc
      rcases List.mem_cons.mp hc with rfl | hc
      · exact hPb
      · exact hP c hc

/-- Claim C5, counterexample: on the valid 3×2 table [[1,0],[2,0],[0,1]]
(R = 3, so C(R,2) = 3 result rows are claimed) `pairwise_chi2_posthoc`
raises at the pair (A, B), whose sub-table [[1,0],[2,0]] has an all-zero
column, instead of returning C(R,2) rows. -/
theorem claim_C5_counterexample :
    (⟨[.str "A", .str "B", .str "C"], [.str "x", .str "y"],
        [[1, 0], [2, 0], [0, 1]]⟩ : CTable).rowLabels.length.choose 2 = 3 ∧
    pairwise_chi2_posthoc sfZero
        ⟨[.str "A", .str "B", .str "C"], [.str "x", .str "y"],
          [[1, 0], [2, 0], [0, 1]]⟩ (5/100) =
      .error "The internally computed table of expected frequencies has a zero element." :=
  ⟨by decide, by rfl⟩

/-- Claim C5, amended: when R < 2 the result set is empty without error;
and whenever every row has a positive sum and no column is zero in both
rows of any pair (so that every pairwise chi-square call succeeds — by
the counterexample the call otherwise raises), the result has exactly
C(R,2) rows, each carrying `p_adj = min(1, p * m)` with `m = C(R,2)` and
`significant = (p_adj < alpha)`. -/
theorem claim_C5 (sf : ℚ → Nat → ℚ) (alpha : ℚ) (t : CTable)
    (hlen : t.cells.length = t.rowLabels.length)
    (hrect : ∀ r ∈ t.cells, r.length = t.colLabels.length) :
    (t.rowLabels.length < 2 → pairwise_chi2_posthoc sf t alpha = .ok []) ∧
    (0 < t.colLabels.length →
      (∀ i < t.rowLabels.length, 0 < rowMargin t.cells i) →
      (∀ i j, i < j → j < t.rowLabels.length → ∀ k < t.colLabels.length,
        0 < (t.cells.getD i []).getD k 0 + (t.cells.getD j []).getD k 0) →
      ∃ res, pairwise_chi2_posthoc sf t alpha = .ok res ∧
        res.length = t.rowLabels.length.choose 2 ∧
        ∀ row ∈ res, ∃ q, row.p = some q ∧
          row.p_adj = some (min 1 (q * (t.rowLabels.length.choose 2 : ℚ))) ∧
          row.significant = decide (min 1 (q * (t.rowLabels.length.choose 2 : ℚ)) < alpha)) := by
  constructor
  · intro hR2
    have hpl : pairsList t.rowLabels.length = [] := by
      have : t.rowLabels.length = 0 ∨ t.rowLabels.length = 1 := by omega
      rcases this with h | h <;> rw [h] <;> rfl
    simp only [pairwise_chi2_posthoc, hpl, mapE, Bind.bind, Except.bind]
    rfl
  · intro hC0 hrm hcol
    have hpair : ∀ ij ∈ pairsList t.rowLabels.length,
        ∃ b, ((chi2_contingency sf true
            [t.cells.getD ij.1 [], t.cells.getD ij.2 []]).map
          (fun out =>
            { row1 := t.rowLabels.getD ij.1 (.str ""),
              row2 := t.rowLabels.getD ij.2 (.str ""),
              chi2 := out.chi2, p := out.p : RawPair })) = .ok b ∧
          (∃ q, b.p = some q) := by
      rintro ⟨i, j⟩ hij
      rw [pairsList_mem] at hij
      obtain ⟨hij1, hij2⟩ := hij
      have hiR : i < t.cells.length := by omega
      have hjR : j < t.cells.length := by omega
      have hri : t.cells.getD i [] ∈ t.cells := by
        rw [List.getD_eq_getElem _ _ hiR]
        exact List.getElem_mem _
      have hrj : t.cells.getD j [] ∈ t.cells := by
        rw [List.getD_eq_getElem _ _ hjR]
        exact List.getElem_mem _
      obtain ⟨out, hchi, _, _, q, p', hq, hp'⟩ := chi2_contingency_ok sf true
        [t.cells.getD i [], t.cells.getD j []] t.colLabels.length
        (by
          intro r hr
          rcases List.mem_cons.mp hr with rfl | hr
          · exact hrect _ hri
          · rcases List.mem_cons.mp hr with rfl | hr
            · exact hrect _ hrj
            · exact absurd hr (List.not_mem_nil _))
        (by simp) hC0
        (by
          intro i' hi'
          match i', hi' with
          | 0, _ => exact hrm i (by omega)
          | 1, _ => exact hrm j (by omega))
        (by
          intro k hk
          show 0 < colMargin [t.cells.getD i [], t.cells.getD j []] k
          have hc := hcol i j hij1 hij2 k hk
          simp only [colMargin, List.map_cons, List.map_nil, List.sum_cons, List.sum_nil]
          omega)
      refine ⟨_, by rw [hchi]; rfl, p', ?_⟩
      simpa using hp'
    obtain ⟨raw, hmap, hrawlen, hrawP⟩ := mapE_ok _ hpair
    have hrun : pairwise_chi2_posthoc sf t alpha = .ok (raw.map (fun r =>
        let padj := if 0 < raw.length then pyMinOneMul r.p raw.length else r.p
        { row1 := r.row1, row2 := r.row2, chi2 := r.chi2, p := r.p,
          p_adj := padj,
          significant := match padj with
            | some q => decide (q < alpha)
            | none => false })) := by
      simp only [pairwise_chi2_posthoc, hmap, Bind.bind, Except.bind]
      rfl
    refine ⟨_, hrun, ?_, ?_⟩
    · rw [List.length_map, hrawlen, pairsList_length]
    · intro row hrow
      obtain ⟨r, hr, rfl⟩ := List.mem_map.mp hrow
      obtain ⟨q, hq⟩ := hrawP r hr
      have hm : 0 < raw.length := List.length_pos.mpr (List.ne_nil_of_mem hr)
      have hlenq : (raw.length : ℚ) = (t.rowLabels.length.choose 2 : ℚ) := by
        rw [hrawlen, pairsList_length]
      refine ⟨q, ?_, ?_, ?_⟩
      · show r.p = some q
        exact hq
      · show (if 0 < raw.length then pyMinOneMul r.p raw.length else r.p) = _
        rw [if_pos hm, hq]
        show some (min 1 (q * (raw.length : ℚ))) = _
        rw [hlenq]
      · show (match (if 0 < raw.length then pyMinOneMul r.p raw.length else r.p) with
          | some x => decide (x < alpha)
          | none => false) = _
        rw [if_pos hm, hq]
        show decide (min 1 (q * (raw.length : ℚ)) < alpha) = _
        rw [hlenq]

/-- Claim C5, witness: the 2×2 table [[1,1],[1,1]] with all margins
positive: one pair, `m = 1`. -/
theorem claim_C5_witness :
    ∃ res, pairwise_chi2_posthoc sfZero
        ⟨[.str "A", .str "B"], [.str "x", .str "y"], [[1, 1], [1, 1]]⟩ (5/100) =
        .ok res ∧
      res.length = Nat.choose 2 2 ∧
      ∀ row ∈ res, ∃ q, row.p = some q ∧
        row.p_adj = some (min 1 (q * (Nat.choose 2 2 : ℚ))) ∧
        row.significant = decide (min 1 (q * (Nat.choose 2 2 : ℚ)) < 5/100) :=
  (claim_C5 sfZero (5/100)
    ⟨[.str "A", .str "B"], [.str "x", .str "y"], [[1, 1], [1, 1]]⟩
    (by decide) (by decide)).2 (by decide) (by decide)
    (by intro i j hij hjR k hk
        have hj2 : j < 2 := hjR
        have hk2 : k < 2 := hk
        clear hjR hk
        interval_cases j <;> interval_cases i <;> interval_cases k <;> decide)

/-- Splitting a list by a nodup, covering list of key values and
concatenating the groups is a permutation of the list. -/
theorem filter_partition_perm {α κ : Type} [DecidableEq κ] (key : α → κ) :
    ∀ (ks : List κ) (l : List α), ks.Nodup → (∀ x ∈ l, key x ∈ ks) →
    ((ks.map (fun v => l.filter (fun x => key x = v))).flatten).Perm l := by
  intro ks
  induction ks with
  | nil =>
    intro l _ hcov
    have hl : l = [] := by
      cases l with
      | nil => rfl
      | cons a t => exact absurd (hcov a (List.mem_cons_self a t)) (List.not_mem_nil _)
    subst hl
    simp
  | cons v ks ih =>
    intro l hnd hcov
    rw [List.map_cons, List.flatten_cons]
    have hvks : v ∉ ks := (List.nodup_cons.mp hnd).1
    have hnd' := (List.nodup_cons.mp hnd).2
    have hmapeq : ks.map (fun v' => l.filter (fun x => key x = v'))
        = ks.map (fun v' => (l.filter (fun x => ¬ key x = v)).filter
            (fun x => key x = v')) := by
      apply List.map_congr_left
      intro v' hv'
      rw [List.filter_filter]
      apply List.filter_congr
      intro x _
      by_cases h : key x = v'
      · have hne : ¬ key x = v := by
          rw [h]
          intro hh
          exact hvks (hh ▸ hv')
        simp [h, hne]
        exact fun hh => hvks (hh ▸ hv')
      · simp [h]
    have hcov' : ∀ x ∈ l.filter (fun x => ¬ key x = v), key x ∈ ks := by
      intro x hx
      have hxl := List.mem_of_mem_filter hx
      have hxv : ¬ key x = v := by simpa using (List.mem_filter.mp hx).2
      rcases List.mem_cons.mp (hcov x hxl) with h | h
      · exact absurd h hxv
      · exact h
    have hperm := ih (l.filter (fun x => ¬ key x = v)) hnd' hcov'
    have h1 : (l.filter (fun x => key x = v)
          ++ (ks.map (fun v' => l.filter (fun x => key x = v'))).flatten).Perm
        (l.filter (fun x => key x = v) ++ l.filter (fun x => ¬ key x = v)) := by
      rw [hmapeq]
      exact List.Perm.append_left _ hperm
    have hdn : (fun x => decide (¬ key x = v)) = (fun x => ! decide (key x = v)) := by
      funext x
      exact decide_not
    have h2 : (l.filter (fun x => key x = v) ++ l.filter (fun x => ¬ key x = v)).Perm l := by
      rw [hdn]
      exact List.filter_append_perm _ l
    exact h1.trans h2

/-- Claim C4, amended: the by-key partitioner emits exactly one batch per
distinct non-missing key value, in ascending sorted key order (pandas
`groupby` defaults) — not first-occurrence order; each batch is nonempty
and the batches together are a permutation of the records whose key is
non-missing (rows with a NaN/None key are silently dropped and appear in
no batch).  On keys [A,A,B,B,B] the sorted order coincides with first
occurrence: 2 batches of sizes 2 and 3, in order [A, B] (see the
witness). -/
theorem claim_C4 (df : DataFrame) (bc : String) (i : Nat)
    (hci : df.colIndex bc = some i) :
    ∃ bs, define_batches_by_column df bc = .ok bs ∧
      bs.length = ((df.colAt i).filter (fun v => ! v.isNA)).dedup.length ∧
      (∀ b ∈ bs, b.cols = df.cols ∧ b.rows ≠ []) ∧
      ((bs.map DataFrame.rows).flatten).Perm
        (df.rows.filter (fun r => ! (r.getD i (.str "")).isNA)) ∧
      bs = (sortedDistinct ((df.colAt i).filter (fun v => ! v.isNA))).map (fun v =>
        { cols := df.cols, rows := df.rows.filter (fun r => r.getD i (.str "") = v) }) := by
  have hbs : define_batches_by_column df bc = .ok
      ((sortedDistinct ((df.colAt i).filter (fun v => ! v.isNA))).map fun v =>
        { cols := df.cols, rows := df.rows.filter (fun r => r.getD i (.str "") = v) }) := by
    rw [define_batches_by_column, hci]
  refine ⟨_, hbs, ?_, ?_, ?_, rfl⟩
  · rw [List.length_map]
    exact List.length_insertionSort _ _
  · intro b hb
    obtain ⟨v, hv, rfl⟩ := List.mem_map.mp hb
    refine ⟨rfl, ?_⟩
    have hvmem : v ∈ df.colAt i :=
      List.mem_of_mem_filter (sortedDistinct_mem.mp hv)
    obtain ⟨r, hr, hrv⟩ := List.mem_map.mp hvmem
    exact List.ne_nil_of_mem (List.mem_filter.mpr ⟨hr, by simpa using hrv⟩)
  · rw [List.map_map]
    have hcomp : (DataFrame.rows ∘ (fun v =>
        ({ cols := df.cols, rows := df.rows.filter (fun r => r.getD i (.str "") = v) } :
          DataFrame))) = fun v => df.rows.filter (fun r => r.getD i (.str "") = v) := rfl
    rw [hcomp]
    -- each group filters only non-NA-keyed rows, since its key v is non-NA
    have hgrp : ∀ v ∈ sortedDistinct ((df.colAt i).filter (fun v => ! v.isNA)),
        df.rows.filter (fun r => r.getD i (.str "") = v) =
        (df.rows.filter (fun r => ! (r.getD i (.str "")).isNA)).filter
          (fun r => r.getD i (.str "") = v) := by
      intro v hv
      have hvNA : v.isNA = false := by
        have := (List.mem_filter.mp (sortedDistinct_mem.mp hv)).2
        simpa using this
      rw [List.filter_filter]
      apply List.filter_congr
      intro r _
      by_cases h : r.getD i (.str "") = v
      · rw [h]
        simp [hvNA]
      · rw [decide_eq_false h, Bool.false_and]
    rw [List.map_congr_left hgrp]
    exact filter_partition_perm (fun r : List PyVal => r.getD i (.str "")) _ _
      (sortedDistinct_nodup _)
      (fun x hx => sortedDistinct_mem.mpr (List.mem_filter.mpr
        ⟨List.mem_map_of_mem _ (List.mem_of_mem_filter hx),
         by simpa using (List.mem_filter.mp hx).2⟩))

/-- Claim C4, witness: keys [A,A,B,B,B] (none missing) give exactly 2
batches of sizes 2 and 3, in order [A, B]. -/
theorem claim_C4_witness :
    (∃ bs, define_batches_by_column
        ⟨["k"], [[.str "A"], [.str "A"], [.str "B"], [.str "B"], [.str "B"]]⟩ "k" =
        .ok bs ∧
      bs.length = (((⟨["k"], [[.str "A"], [.str "A"], [.str "B"], [.str "B"], [.str "B"]]⟩ :
        DataFrame).colAt 0).filter (fun v => ! v.isNA)).dedup.length ∧
      (∀ b ∈ bs, b.cols = ["k"] ∧ b.rows ≠ []) ∧
      ((bs.map DataFrame.rows).flatten).Perm
        (([[PyVal.str "A"], [PyVal.str "A"], [PyVal.str "B"], [PyVal.str "B"],
          [PyVal.str "B"]] : List (List PyVal)).filter
            (fun r => ! (r.getD 0 (.str "")).isNA)) ∧
      bs = (sortedDistinct (((⟨["k"], [[.str "A"], [.str "A"], [.str "B"], [.str "B"],
          [.str "B"]]⟩ : DataFrame).colAt 0).filter (fun v => ! v.isNA))).map (fun v =>
        { cols := ["k"], rows := ([[PyVal.str "A"], [PyVal.str "A"], [PyVal.str "B"],
          [PyVal.str "B"], [PyVal.str "B"]] : List (List PyVal)).filter
            (fun r => r.getD 0 (.str "") = v) })) ∧
    define_batches_by_column
        ⟨["k"], [[.str "A"], [.str "A"], [.str "B"], [.str "B"], [.str "B"]]⟩ "k" =
      .ok [⟨["k"], [[.str "A"], [.str "A"]]⟩,
           ⟨["k"], [[.str "B"], [.str "B"], [.str "B"]]⟩] :=
  ⟨claim_C4 ⟨["k"], [[.str "A"], [.str "A"], [.str "B"], [.str "B"], [.str "B"]]⟩
    "k" 0 rfl, by rfl⟩

/-! ### Cleaning -/

theorem indexOf?_some_spec {l : List String} {c : String} {i : Nat} :
    l.indexOf? c = some i → ∃ hlt : i < l.length, l[i] = c := by
  induction l generalizing i with
  | nil => intro h; simp at h
  | cons x xs ih =>
    intro h
    rw [List.indexOf?_cons] at h
    by_cases hx : (x == c) = true
    · rw [if_pos hx] at h
      cases h
      exact ⟨by simp, by simpa using hx⟩
    · rw [if_neg hx] at h
      match hxs : xs.indexOf? c, h with
      | some j, h =>
        rw [show Option.map Nat.succ (some j) = some (Nat.succ j) from rfl,
          Option.some.injEq] at h
        obtain ⟨hlt, heq⟩ := ih hxs
        subst h
        exact ⟨by simpa using Nat.succ_lt_succ hlt, by simpa using heq⟩

theorem indexOf?_isSome_of_mem {l : List String} {c : String} (h : c ∈ l) :
    ∃ i, l.indexOf? c = some i := by
  cases hx : l.indexOf? c with
  | some i => exact ⟨i, rfl⟩
  | none =>
    rw [List.indexOf?_eq_none_iff] at hx
    have := hx c h
    simp at this

theorem colAt_mapCol_same (df : DataFrame) (i : Nat) (f : PyVal → PyVal)
    (hwf : ∀ r ∈ df.rows, i < r.length) :
    (df.mapCol i f).colAt i = (df.colAt i).map f := by
  show (df.rows.map (mapCellAt f i)).map _ = _
  unfold DataFrame.colAt
  rw [List.map_map, List.map_map]
  apply List.map_congr_left
  intro r hr
  show (mapCellAt f i r).getD i (.str "") = f (r.getD i (.str ""))
  unfold mapCellAt
  have hi := hwf r hr
  rw [List.getD_eq_getElem _ _ (by simpa using hi), List.getElem_set_self,
    List.getD_eq_getElem _ _ hi]

theorem colAt_mapCol_ne (df : DataFrame) (i j : Nat) (f : PyVal → PyVal)
    (hij : i ≠ j) : (df.mapCol i f).colAt j = df.colAt j := by
  show (df.rows.map (mapCellAt f i)).map _ = _
  unfold DataFrame.colAt
  rw [List.map_map]
  apply List.map_congr_left
  intro r _
  show (mapCellAt f i r).getD j (.str "") = r.getD j (.str "")
  unfold mapCellAt
  rw [List.getD_eq_getElem?_getD, List.getElem?_set_ne hij, ← List.getD_eq_getElem?_getD]

/-- The per-column effect of `clean_categorical_columns`: each named
column is mapped through `cleanCell`, all other columns are untouched. -/
theorem clean_go : ∀ (cats : List String) (df : DataFrame),
    df.cols.Nodup → cats.Nodup →
    (∀ c ∈ cats, c ∈ df.cols) →
    (∀ r ∈ df.rows, r.length = df.cols.length) →
    ∃ df', clean_categorical_columns df cats = .ok df' ∧
      df'.cols = df.cols ∧
      df'.rows.length = df.rows.length ∧
      (∀ r ∈ df'.rows, r.length = df.cols.length) ∧
      (∀ j, (hj : j < df.cols.length) →
        df'.colAt j = (if df.cols[j] ∈ cats then (df.colAt j).map cleanCell
          else df.colAt j)) := by
  intro cats
  induction cats with
  | nil =>
    intro df _ _ _ hwf
    exact ⟨df, rfl, rfl, rfl, hwf, fun j hj => by simp⟩
  | cons c rest ih =>
    intro df hcolnd hnd hsub hwf
    obtain ⟨i, hci⟩ := indexOf?_isSome_of_mem (hsub c (List.mem_cons_self c rest))
    obtain ⟨hilt, hic⟩ := indexOf?_some_spec hci
    have hcrest : c ∉ rest := (List.nodup_cons.mp hnd).1
    have hnd' := (List.nodup_cons.mp hnd).2
    have hwf1 : ∀ r ∈ (df.mapCol i cleanCell).rows, r.length = df.cols.length := by
      intro r hr
      obtain ⟨r0, hr0, rfl⟩ := List.mem_map.mp hr
      show (mapCellAt cleanCell i r0).length = _
      unfold mapCellAt
      rw [List.length_set]
      exact hwf r0 hr0
    obtain ⟨df', hrun, hcols, hrl, hrowwf, hcolAt⟩ := ih (df.mapCol i cleanCell)
      hcolnd hnd' (fun c' hc' => hsub c' (List.mem_cons_of_mem c hc')) hwf1
    refine ⟨df', ?_, hcols, ?_, hrowwf, ?_⟩
    · show clean_categorical_columns df (c :: rest) = .ok df'
      unfold clean_categorical_columns
      show (match df.colIndex c with
        | none => Except.error ("Column " ++ c ++ " not in dataframe.")
        | some i => clean_categorical_columns (df.mapCol i cleanCell) rest) = _
      rw [show df.colIndex c = some i from hci]
      exact hrun
    · rw [hrl]
      exact List.length_map _ _
    · intro j hj
      have hcolAtj : df'.colAt j = (if df.cols[j] ∈ rest
          then ((df.mapCol i cleanCell).colAt j).map cleanCell
          else (df.mapCol i cleanCell).colAt j) := hcolAt j hj
      by_cases hji : j = i
      · subst hji
        have hcj : df.cols[j] = c := hic
        rw [if_neg (by rw [hcj]; simpa using hcrest)] at hcolAtj
        rw [hcolAtj, if_pos (by rw [hcj]; exact List.mem_cons_self c rest)]
        exact colAt_mapCol_same df j cleanCell
          (fun r hr => by rw [hwf r hr]; exact hj)
      · have hcne : ¬ df.cols[j] = c := by
          intro hc
          apply hji
          have heq2 : df.cols[j] = df.cols[i] := by rw [hc, hic]
          exact (hcolnd.getElem_inj_iff).mp heq2
        rw [colAt_mapCol_ne df i j cleanCell (fun h => hji h.symm)] at hcolAtj
        rw [hcolAtj]
        by_cases hmem : df.cols[j] ∈ rest
        · rw [if_pos hmem, if_pos (List.mem_cons_of_mem c hmem)]
        · rw [if_neg hmem, if_neg (by
            intro hc
            rcases List.mem_cons.mp hc with hc | hc
            · exact hcne hc
            · exact hmem hc)]

/-- Claim C9: cleaning maps every value of a named categorical column to
the trimmed string form of the raw value, sending trimmed "", "nan" and
"None" to "Missing" — so a legitimate string value "nan"/"None" becomes
indistinguishable from a genuinely missing value (both map to "Missing"),
and non-string values are silently converted to their string forms.
Other columns are untouched. -/
theorem claim_C9 (df : DataFrame) (cats : List String)
    (hcolnd : df.cols.Nodup) (hnd : cats.Nodup)
    (hsub : ∀ c ∈ cats, c ∈ df.cols)
    (hwf : ∀ r ∈ df.rows, r.length = df.cols.length) :
    cleanCell (.str "nan") = .str "Missing" ∧
    cleanCell .nanV = .str "Missing" ∧
    cleanCell (.str " None ") = .str "Missing" ∧
    cleanCell (.intV 7) = .str "7" ∧
    cleanCell (.str " x ") = .str "x" ∧
    ∃ df', clean_categorical_columns df cats = .ok df' ∧
      df'.cols = df.cols ∧ df'.rows.length = df.rows.length ∧
      (∀ c ∈ cats, df'.getCol c = (df.getCol c).map (List.map cleanCell)) ∧
      (∀ c ∈ df.cols, c ∉ cats → df'.getCol c = df.getCol c) := by
  refine ⟨by rfl, by rfl, by rfl, by rfl, by rfl, ?_⟩
  obtain ⟨df', hrun, hcols, hrl, _, hcolAt⟩ := clean_go cats df hcolnd hnd hsub hwf
  refine ⟨df', hrun, hcols, hrl, ?_, ?_⟩
  · intro c hc
    obtain ⟨i, hci⟩ := indexOf?_isSome_of_mem (hsub c hc)
    obtain ⟨hilt, hic⟩ := indexOf?_some_spec hci
    show (df'.colIndex c).map df'.colAt = ((df.colIndex c).map df.colAt).map _
    have hci' : df'.colIndex c = some i := by
      show df'.cols.indexOf? c = some i
      rw [hcols]
      exact hci
    rw [hci', show df.colIndex c = some i from hci]
    show some (df'.colAt i) = some ((df.colAt i).map cleanCell)
    have hcA := hcolAt i hilt
    rw [if_pos (by rw [hic]; exact hc)] at hcA
    rw [hcA]
  · intro c hcm hcnot
    obtain ⟨i, hci⟩ := indexOf?_isSome_of_mem hcm
    obtain ⟨hilt, hic⟩ := indexOf?_some_spec hci
    show (df'.colIndex c).map df'.colAt = (df.colIndex c).map df.colAt
    have hci' : df'.colIndex c = some i := by
      show df'.cols.indexOf? c = some i
      rw [hcols]
      exact hci
    rw [hci', show df.colIndex c = some i from hci]
    show some (df'.colAt i) = some (df.colAt i)
    have hcA := hcolAt i hilt
    rw [if_neg (by rw [hic]; exact hcnot)] at hcA
    rw [hcA]

/-- Claim C9, witness: a 2×2 frame with a whitespace string, a number, a
float NaN and the literal string "None"; cleaning column "a" maps its
values through `cleanCell` and leaves column "b" untouched. -/
theorem claim_C9_witness :
    cleanCell (.str "nan") = .str "Missing" ∧
    cleanCell .nanV = .str "Missing" ∧
    cleanCell (.str " None ") = .str "Missing" ∧
    cleanCell (.intV 7) = .str "7" ∧
    cleanCell (.str " x ") = .str "x" ∧
    ∃ df', clean_categorical_columns
        ⟨["a", "b"], [[.str " x ", .intV 3], [.nanV, .str "None"]]⟩ ["a"] = .ok df' ∧
      df'.cols = ["a", "b"] ∧ df'.rows.length = 2 ∧
      (∀ c ∈ ["a"], df'.getCol c =
        (DataFrame.getCol ⟨["a", "b"], [[.str " x ", .intV 3], [.nanV, .str "None"]]⟩ c).map
          (List.map cleanCell)) ∧
      (∀ c ∈ ["a", "b"], c ∉ ["a"] → df'.getCol c =
        DataFrame.getCol ⟨["a", "b"], [[.str " x ", .intV 3], [.nanV, .str "None"]]⟩ c) :=
  claim_C9 ⟨["a", "b"], [[.str " x ", .intV 3], [.nanV, .str "None"]]⟩ ["a"]
    (by decide) (by decide) (by decide) (by decide)
